import Mathlib

/-!
# enorith/httpclient: a verification development

A shallow embedding of `client.go` and `result.go`.

* Go strings are byte sequences (`GoString`).
* `map[string][]string` (`url.Values`, `http.Header`) is a finite map with
  distinct keys (`StrMap`); indexing a missing key gives the empty slice.
* The pieces of the Go standard library the two files call (`Header.Set`,
  `Header.Add`, `Values.Set`, `Values.Add`, `Values.Encode`, `URL.Query`,
  `QueryEscape`, `QueryUnescape`, `CanonicalMIMEHeaderKey`) are written out
  after their Go sources.
* `url.ParseQuery` refuses a query of more than 10000 pieces
  (`defaultMaxParams`), and `URL.Query` then gives the empty map.
* The caller of a Holder is one thread of control.  The goroutine started by
  `Holder.do` does not run at once: it runs when the scheduler picks it
  (`Call.yield`, at any point between two steps of the caller, also inside a
  resolver), at the latest when the caller blocks on the channel receive of
  `Holder.wait`.  When it runs it reads the request as it is at that moment,
  calls the transport (taken to return) and parks on the send; the unbuffered
  channel `result` then holds the value the parked sender offers.
* The request is shared through a pointer, so it can be changed after the
  Holder was made: by the decorator methods and by direct writes (`Call.edit`).
* A resolver handed to `Then`, `Catch` or `Before` is given by the calls it
  makes on the Holder while it runs (`Call`), so a resolver may call back into
  the Holder.
  Every step is logged in a trace of `Event`s, so "how many times" questions
  are questions about the trace.
* A call that blocks forever on the channel receive ends in `Outcome.parked`,
  a nil dereference in `Outcome.panicked`.
-/

namespace Httpclient

/-! ## Strings and maps -/

abbrev Byte := Fin 256

abbrev GoString := List Byte

/-- The bytes of an ASCII literal. -/
def ascii (s : String) : GoString := s.toList.map (fun c => Fin.ofNat c.toNat)

/-- A Go `map[string][]string`. -/
abbrev StrMap := AList (fun _ : GoString => List GoString)

/-- The Go expression `m[k]`: the slice stored under `k`, the nil slice when
`k` is missing. -/
def mapIndex (m : StrMap) (k : GoString) : List GoString := (m.lookup k).getD []

/-- The Go statement `m[k] = vs`. -/
def mapAssign (m : StrMap) (k : GoString) (vs : List GoString) : StrMap := m.insert k vs

/-- Go `url.Values.Add`: `v[key] = append(v[key], value)`. -/
def Values.Add (v : StrMap) (key value : GoString) : StrMap :=
  mapAssign v key (mapIndex v key ++ [value])

/-- Go `url.Values.Set`: `v[key] = []string{value}`. -/
def Values.Set (v : StrMap) (key value : GoString) : StrMap :=
  mapAssign v key [value]

/-! ## Header keys (`net/textproto`) -/

def isLower (c : Byte) : Bool := decide (97 ≤ c.val ∧ c.val ≤ 122)

def isUpper (c : Byte) : Bool := decide (65 ≤ c.val ∧ c.val ≤ 90)

def isDigit (c : Byte) : Bool := decide (48 ≤ c.val ∧ c.val ≤ 57)

/-- Go `validHeaderFieldByte`: the token characters of RFC 7230, which are the
letters, the digits and the fifteen marks listed by their byte codes
(exclamation mark, hash, dollar, percent, ampersand, apostrophe, star, plus,
minus, dot, caret, underscore, grave accent, bar, tilde). -/
def validHeaderFieldByte (c : Byte) : Bool :=
  isLower c || isUpper c || isDigit c ||
    decide (c.val ∈ [33, 35, 36, 37, 38, 39, 42, 43, 45, 46, 94, 95, 96, 124, 126])

/-- The second loop of Go `canonicalMIMEHeaderKey`: upper case at the start
and after each dash, lower case elsewhere. -/
def canonLoop : Bool → GoString → GoString
  | _, [] => []
  | upper, c :: cs =>
    let c1 : Byte :=
      if upper && isLower c then c - 32
      else if !upper && isUpper c then c + 32
      else c
    c1 :: canonLoop (c1 == 45) cs

/-- Go `textproto.CanonicalMIMEHeaderKey`: a key holding a byte that is not a
token character (a space included) is returned unchanged. -/
def CanonicalMIMEHeaderKey (s : GoString) : GoString :=
  if s.all validHeaderFieldByte then canonLoop true s else s

/-- Go `http.Header.Set`. -/
def Header.Set (h : StrMap) (key value : GoString) : StrMap :=
  mapAssign h (CanonicalMIMEHeaderKey key) [value]

/-- Go `http.Header.Add`. -/
def Header.Add (h : StrMap) (key value : GoString) : StrMap :=
  mapAssign h (CanonicalMIMEHeaderKey key)
    (mapIndex h (CanonicalMIMEHeaderKey key) ++ [value])

/-! ## Query strings (`net/url`) -/

/-- Go `shouldEscape(c, encodeQueryComponent)`: only the letters, the digits
and the four marks minus, underscore, dot and tilde stay as they are. -/
def shouldEscape (c : Byte) : Bool :=
  !(isLower c || isUpper c || isDigit c || decide (c.val ∈ [45, 95, 46, 126]))

/-- The digit of `upperhex` for a value below sixteen. -/
def upperhex (n : Nat) : Byte := if n < 10 then Fin.ofNat (48 + n) else Fin.ofNat (55 + n)

/-- Go `ishex`. -/
def ishex (c : Byte) : Bool :=
  isDigit c || decide (97 ≤ c.val ∧ c.val ≤ 102) || decide (65 ≤ c.val ∧ c.val ≤ 70)

/-- Go `unhex`. -/
def unhex (c : Byte) : Nat :=
  if isDigit c then c.val - 48
  else if 97 ≤ c.val ∧ c.val ≤ 102 then c.val - 97 + 10
  else if 65 ≤ c.val ∧ c.val ≤ 70 then c.val - 65 + 10
  else 0

/-- Go `url.QueryEscape`: a space becomes a plus sign, every other byte that
must be escaped becomes a percent sign and two upper-case hex digits. -/
def QueryEscape : GoString → GoString
  | [] => []
  | c :: cs =>
    if c = 32 then 43 :: QueryEscape cs
    else if shouldEscape c then 37 :: upperhex (c.val / 16) :: upperhex (c.val % 16) :: QueryEscape cs
    else c :: QueryEscape cs

/-- Go `url.QueryUnescape`: `none` is the `EscapeError` for a percent sign not
followed by two hex digits. -/
def QueryUnescape : GoString → Option GoString
  | [] => some []
  | c :: cs =>
    if c = 37 then
      match cs with
      | a :: b :: rest =>
        if ishex a && ishex b then
          (QueryUnescape rest).map (fun t => Fin.ofNat (unhex a * 16 + unhex b) :: t)
        else none
      | _ => none
    else if c = 43 then (QueryUnescape cs).map (fun t => 32 :: t)
    else (QueryUnescape cs).map (fun t => c :: t)

/-- Go `strings.Cut` for a separator of one byte: the text before the first
separator and the text after it (all of the text and nothing when there is
none). -/
def cut (sep : Byte) : GoString → GoString × GoString
  | [] => ([], [])
  | c :: cs => if c = sep then ([], cs) else ((c :: (cut sep cs).1), (cut sep cs).2)

/-- The pieces `strings.Cut` hands out when it is applied again and again to
what is left (with one more, empty piece after a last separator). -/
def splitOn (sep : Byte) : GoString → List GoString
  | [] => [[]]
  | c :: cs =>
    if c = sep then [] :: splitOn sep cs
    else
      match splitOn sep cs with
      | [] => [[c]]
      | seg :: segs => (c :: seg) :: segs

/-- One turn of the loop of Go `url.parseQuery` (Go 1.17 and later) on the
piece `key` cut off at the next ampersand: a piece with a semicolon, an empty
piece and a piece that does not unescape are dropped. -/
def parseQueryStep (m : StrMap) (key : GoString) : StrMap :=
  if (59 : Byte) ∈ key then m
  else if key = [] then m
  else
    match QueryUnescape (cut 61 key).1 with
    | none => m
    | some k =>
      match QueryUnescape (cut 61 key).2 with
      | none => m
      | some v => mapAssign m k (mapIndex m k ++ [v])

/-- The loop of Go `url.parseQuery`: while the query is not empty, cut it at
the next ampersand and handle the piece before it.  Each turn shortens the
query, so `fuel` turns are enough for a query of length `fuel`. -/
def parseQueryLoop : Nat → StrMap → GoString → StrMap
  | 0, m, _ => m
  | fuel + 1, m, query =>
    if query = [] then m
    else parseQueryLoop fuel (parseQueryStep m (cut 38 query).1) (cut 38 query).2

/-- Go `defaultMaxParams` of `net/url`: the number of query parameters
`parseQuery` accepts when the `urlmaxqueryparams` setting of GODEBUG is not
given. -/
def defaultMaxParams : Nat := 10000

/-- Go `urlParamsWithinMax`, the `urlmaxqueryparams` setting not given. -/
def urlParamsWithinMax (params : Nat) : Bool := decide (params ≤ defaultMaxParams)

/-- The number of pieces of a query: `strings.Count(query, "&") + 1`. -/
def queryPieces (query : GoString) : Nat := query.count 38 + 1

/-- What the loop of `url.parseQuery` reads from a query: the pairs the query
holds. -/
def queryPairs (query : GoString) : StrMap :=
  parseQueryLoop query.length ∅ query

/-- Go `url.ParseQuery`, its error dropped as `URL.Query` drops it: a query of
more pieces than the limit is refused before the loop and the map stays
empty. -/
def ParseQuery (query : GoString) : StrMap :=
  if urlParamsWithinMax (queryPieces query) then queryPairs query else ∅

/-- The part of `url.URL` the code reads and writes (`RawQuery`), and the
rest of it kept as one string. -/
structure URL where
  Rest : GoString
  RawQuery : GoString
deriving DecidableEq

/-- Go `URL.Query`. -/
def URL.Query (u : URL) : StrMap := ParseQuery u.RawQuery

/-- Byte-wise lexicographic order on strings, the order of the Go operator `<=`. -/
def strLe : GoString → GoString → Bool
  | [], _ => true
  | _ :: _, [] => false
  | a :: as, b :: bs => if a.val < b.val then true else if b.val < a.val then false else strLe as bs

/-- The inner loop of Go `Values.Encode` for one key. -/
def encodeKey (k : GoString) (vs : List GoString) (buf : GoString) : GoString :=
  vs.foldl
    (fun buf v => (if buf.length > 0 then buf ++ [38] else buf) ++ QueryEscape k ++ [61] ++ QueryEscape v)
    buf

/-- Go `url.Values.Encode`: the keys sorted, each value written as
`key=value`, an ampersand between two of them. -/
def Values.Encode (v : StrMap) : GoString :=
  (v.keys.insertionSort (fun a b => strLe a b = true)).foldl
    (fun buf k => encodeKey k (mapIndex v k) buf) []

/-! ## Requests, responses, the client -/

/-- Go `http.Request`, the fields the code touches.  `Body` is the content of
the `RequestBody` buffer, `none` for a nil body. -/
structure Request where
  Method : GoString
  URL : URL
  Header : StrMap
  Body : Option (List Byte)
  ContentLength : Int
deriving DecidableEq

/-- Go `http.Response`, the fields the code touches. -/
structure RawResponse where
  StatusCode : Int
  Body : List Byte
deriving DecidableEq

abbrev GoError := GoString

/-- Source `HttpResponse` (result.go:20): a raw response or nil, an error or
nil. -/
structure HttpResponse where
  Response : Option RawResponse
  Err : Option GoError
deriving DecidableEq

/-- Go `http.Client`: its timeout in nanoseconds and what its `Do` method
answers for a request (the transport is external). -/
structure GoHttpClient where
  Timeout : Nat
  Do : Request → Option RawResponse × Option GoError

/-- What lies outside the two files: the default transport, `runtime.Version()`
and `http.NewRequest`. -/
structure Env where
  DefaultTransport : Request → Option RawResponse × Option GoError
  runtimeVersion : GoString
  NewRequest : GoString → GoString → Except GoError Request

/-- Source `Client` (client.go:19).  An interceptor is a Go function that
mutates what it is handed; here it maps the old value to the new one. -/
structure Client where
  http : Option GoHttpClient
  configInterceptor : Option (GoHttpClient → GoHttpClient)
  requestInterceptor : Option (Request → Request)

def version : GoString := ascii "0.0.1"

/-- Source `UserAgent` (client.go:15). -/
def UserAgent (env : Env) : GoString :=
  ascii "RithHttp/" ++ version ++ ascii " (" ++ env.runtimeVersion ++ ascii ")"

def resultIdle : Nat := 0

def resultResolving : Nat := 1

def resultResolved : Nat := 2

/-- Source `Holder` (result.go:46).  `req` and `client` are pointers in Go: the
fields hold the current content of what they point at.  `result` is the
unbuffered channel: `some v` while the goroutine is parked on `result <- v`.
`sdr` tells whether the decorator has been allocated (its two fields point
back at `req` and at the Holder). -/
structure Holder where
  req : Request
  result : Option HttpResponse
  response : Option HttpResponse
  client : Client
  state : Nat
  errorState : Nat
  sdr : Bool
  requested : Bool

/-- What happened, in order. -/
inductive Event where
  | configIntercept
  | requestIntercept (req : Request)
  | spawn
  | transport (req : Request)
  | chanSend (v : HttpResponse)
  | chanRecv (v : HttpResponse)
  | thenCb (cb : Nat) (res : HttpResponse)
  | catchCb (cb : Nat) (err : GoError)

def Event.isRequestIntercept : Event → Bool
  | .requestIntercept _ => true
  | _ => false

def Event.isSpawn : Event → Bool
  | .spawn => true
  | _ => false

def Event.isTransport : Event → Bool
  | .transport _ => true
  | _ => false

def Event.isChanSend : Event → Bool
  | .chanSend _ => true
  | _ => false

def Event.isChanRecv : Event → Bool
  | .chanRecv _ => true
  | _ => false

def Event.isThenCb : Event → Bool
  | .thenCb _ _ => true
  | _ => false

def Event.isCatchCb : Event → Bool
  | .catchCb _ _ => true
  | _ => false

/-- The requests handed to the transport, in order. -/
def sentRequests : List Event → List Request
  | [] => []
  | .transport r :: es => r :: sentRequests es
  | _ :: es => sentRequests es

/-- A Holder together with the trace so far and the state of the goroutine
of `Holder.do`: `goroutine` is true from the `go` statement until the
goroutine gets to run. -/
structure Sys where
  holder : Holder
  trace : List Event
  goroutine : Bool

/-- How a call ends: it returns a value, it blocks forever on the channel
receive, or it dereferences nil. -/
inductive Outcome (α : Type) where
  | returned (s : Sys) (v : α)
  | parked (s : Sys)
  | panicked (s : Sys)

def Outcome.sys {α : Type} : Outcome α → Sys
  | .returned s _ => s
  | .parked s => s
  | .panicked s => s

def Outcome.isReturned {α : Type} : Outcome α → Bool
  | .returned _ _ => true
  | _ => false

def Outcome.isParked {α : Type} : Outcome α → Bool
  | .parked _ => true
  | _ => false

def Outcome.value {α : Type} : Outcome α → Option α
  | .returned _ v => some v
  | _ => none

/-- Sequencing: what follows a call runs only when the call returns. -/
def Outcome.andThen {α β : Type} (o : Outcome α) (f : Sys → α → Outcome β) : Outcome β :=
  match o with
  | .returned s v => f s v
  | .parked s => .parked s
  | .panicked s => .panicked s

/-! ## client.go -/

/-- Five seconds, in nanoseconds (`5 * time.Second`). -/
def fiveSeconds : Nat := 5 * 1000000000

/-- Source `Client.bootRequest` (client.go:89). -/
def Client.bootRequest (env : Env) (c : Client) (req : Request) (tr : List Event) :
    Client × Request × List Event :=
  let (c1, tr1) : Client × List Event :=
    match c.http with
    | none =>
      let hc : GoHttpClient := { Timeout := fiveSeconds, Do := env.DefaultTransport }
      match c.configInterceptor with
      | some f => ({ c with http := some (f hc) }, tr ++ [Event.configIntercept])
      | none => ({ c with http := some hc }, tr)
    | some _ => (c, tr)
  let (req1, tr2) : Request × List Event :=
    match c1.requestInterceptor with
    | some f => (f req, tr1 ++ [Event.requestIntercept req])
    | none => (req, tr1)
  (c1, { req1 with Header := Header.Set req1.Header (ascii "User-Agent") (UserAgent env) }, tr2)

/-! ## result.go -/

/-- Source `HttpResponse.IsSuccessful` (result.go:37).  `none` is the nil
dereference of `r.Response.StatusCode`; the `&&` does not look at
`r.Response` when `r.Err` is not nil. -/
def HttpResponse.IsSuccessful (r : HttpResponse) : Option Bool :=
  match r.Err with
  | some _ => some false
  | none =>
    match r.Response with
    | none => none
    | some resp => some (decide (resp.StatusCode = 200))

/-- Source `Holder.Chain` (result.go:74): the decorator is allocated on the
first call. -/
def Holder.Chain (h : Holder) : Holder :=
  if h.sdr then h else { h with sdr := true }

/-- The wrapper the goroutine of `Holder.do` sends: the two results of the
transport call. -/
def sentValue (hc : GoHttpClient) (req : Request) : HttpResponse :=
  { Response := (hc.Do req).1, Err := (hc.Do req).2 }

/-- Source `Holder.do` (result.go:90): the guard, the flag and the `go`
statement.  The goroutine is started here and runs later. -/
def Holder.do (s : Sys) : Sys :=
  if s.holder.requested then s
  else
    { holder := { s.holder with requested := true },
      trace := s.trace ++ [Event.spawn],
      goroutine := true }

/-- The body of the goroutine of `Holder.do` (result.go:97-101), run when the
scheduler picks the goroutine: `h.Chain()`, the transport call on the request
as it is at that moment, then the send of the new wrapper on `h.result`, where
the goroutine stays until a receiver comes.  With a nil `h.client.http` the
goroutine dereferences nil before it reaches the transport.  Without a
goroutine waiting to run nothing happens. -/
def Sys.runGoroutine (s : Sys) : Sys :=
  if s.goroutine then
    match (Holder.Chain s.holder).client.http with
    | none => { holder := Holder.Chain s.holder, trace := s.trace, goroutine := false }
    | some hc =>
      { holder := { Holder.Chain s.holder with
                    result := some (sentValue hc (Holder.Chain s.holder).req) },
        trace := s.trace ++ [Event.transport (Holder.Chain s.holder).req,
          Event.chanSend (sentValue hc (Holder.Chain s.holder).req)],
        goroutine := false }
  else s

/-- The receive `<-h.result` of `Holder.wait`, the goroutine having run: it
takes the value of the sender; with no sender it never returns. -/
def Holder.receive (s : Sys) : Outcome Unit :=
  match s.holder.result with
  | some v =>
    .returned { s with holder := { s.holder with response := some v, result := none },
                       trace := s.trace ++ [Event.chanRecv v] } ()
  | none => .parked s

/-- Source `Holder.wait` (result.go:106).  The receive blocks the caller, so a
goroutine that has not run yet runs first. -/
def Holder.wait (s : Sys) : Outcome Unit :=
  match s.holder.response with
  | some _ => .returned s ()
  | none => Holder.receive (Sys.runGoroutine s)

/-- Source `Holder.GetResponse` (result.go:112). -/
def Holder.GetResponse (s : Sys) : Outcome (Option HttpResponse) :=
  (Holder.wait (Holder.do s)).andThen fun s1 _ => .returned s1 s1.holder.response

/-- The assignment `h.state = n`. -/
def Sys.setState (s : Sys) (n : Nat) : Sys :=
  { s with holder := { s.holder with state := n } }

/-- The assignment `h.errorState = n`. -/
def Sys.setErrorState (s : Sys) (n : Nat) : Sys :=
  { s with holder := { s.holder with errorState := n } }

/-- One more event in the trace. -/
def Sys.log (s : Sys) (e : Event) : Sys :=
  { s with trace := s.trace ++ [e] }

/-- Source `Holder.Then` (result.go:57).  `cb` names the resolver and `body`
is what the resolver does to the Holder while it runs.  The deferred
assignment of `resultResolved` runs when the resolver returns. -/
def Holder.Then (cb : Nat) (body : Sys → Outcome Unit) (s : Sys) : Outcome Unit :=
  if s.holder.state ≠ resultIdle then .returned s ()
  else
    (Holder.wait (Holder.do s)).andThen fun s1 _ =>
      let s2 := Sys.setState s1 resultResolving
      match s2.holder.response with
      | none => .returned s2 ()
      | some res =>
        (body (Sys.log s2 (Event.thenCb cb res))).andThen fun s3 _ =>
          .returned (Sys.setState s3 resultResolved) ()

/-- Source `Holder.Catch` (result.go:117).  `h.response.Err` dereferences
`h.response`. -/
def Holder.Catch (cb : Nat) (body : Sys → Outcome Unit) (s : Sys) : Outcome Unit :=
  if s.holder.errorState ≠ resultIdle then .returned s ()
  else
    (Holder.wait s).andThen fun s1 _ =>
      let s2 := Sys.setErrorState s1 resultResolving
      match s2.holder.response with
      | none => .panicked s2
      | some res =>
        match res.Err with
        | none => .returned s2 ()
        | some err =>
          (body (Sys.log s2 (Event.catchCb cb err))).andThen fun s3 _ =>
            .returned (Sys.setErrorState s3 resultResolved) ()

/-- Source `Client.AsyncDo` (client.go:73).  `tr` is the trace before the
call. -/
def Client.AsyncDo (env : Env) (c : Client) (req : Request) (now : List Bool)
    (tr : List Event) : Sys :=
  let b := Client.bootRequest env c req tr
  let s : Sys :=
    { holder :=
        { req := b.2.1, result := none, response := none, client := b.1,
          state := resultIdle, errorState := 0, sdr := false, requested := false },
      trace := b.2.2,
      goroutine := false }
  if now.head? = some true then Holder.do s else s

/-- Source `Client.Do` (client.go:66). -/
def Client.Do (env : Env) (c : Client) (req : Request) (tr : List Event) :
    Outcome (Option HttpResponse) :=
  let b := Client.bootRequest env c req tr
  Holder.GetResponse (Client.AsyncDo env b.1 b.2.1 [true] b.2.2)

/-- Go `json.Marshaler`: what its `MarshalJSON` method returns. -/
structure Marshaler where
  MarshalJSON : List Byte × Option GoError

/-- Source `SimpleJsonMarshaler` (result.go:188): its `MarshalJSON` is
`json.Marshal` of the wrapped value; `jsonMarshal` is that library function. -/
def SimpleJsonMarshaler {V : Type} (jsonMarshal : V → List Byte × Option GoError) (v : V) :
    Marshaler :=
  { MarshalJSON := jsonMarshal v }

/-- Source `SimpleDelayRequest.SetHeader` (result.go:141), on the request the
decorator points at. -/
def SimpleDelayRequest.SetHeader (req : Request) (key value : GoString) : Request :=
  { req with Header := Header.Set req.Header key value }

/-- Source `SimpleDelayRequest.AddHeader` (result.go:146). -/
def SimpleDelayRequest.AddHeader (req : Request) (key value : GoString) : Request :=
  { req with Header := Header.Add req.Header key value }

/-- Source `SimpleDelayRequest.Json` (result.go:151): the error of
`MarshalJSON` is dropped. -/
def SimpleDelayRequest.Json (req : Request) (marshaler : Marshaler) : Request :=
  let r1 : Request :=
    { req with Header := Header.Set req.Header (ascii "Content-Type") (ascii "application/json") }
  let b := marshaler.MarshalJSON.1
  { r1 with Body := some b, ContentLength := (b.length : Int) }

/-- Source `SimpleDelayRequest.SimpleJson` (result.go:162). -/
def SimpleDelayRequest.SimpleJson {V : Type} (jsonMarshal : V → List Byte × Option GoError)
    (req : Request) (j : V) : Request :=
  SimpleDelayRequest.Json req (SimpleJsonMarshaler jsonMarshal j)

/-- Source `SimpleDelayRequest.SetQuery` (result.go:166). -/
def SimpleDelayRequest.SetQuery (req : Request) (key value : GoString) : Request :=
  let q := URL.Query req.URL
  let q1 := Values.Set q key value
  { req with URL := { req.URL with RawQuery := Values.Encode q1 } }

/-- Lines 42 to 51 of source `Client.Get`: the values of `query[0]` are added
to the parsed query of the URL, key after key in the order the `range`
visits the map, and the result is encoded.  Without a `query` argument the
request is left as it is. -/
def Client.mergeQuery (req : Request) (query : List StrMap) : Request :=
  match query with
  | [] => req
  | q0 :: _ =>
    let q := q0.entries.foldl
      (fun q kv => kv.2.foldl (fun q s => Values.Add q kv.1 s) q) (URL.Query req.URL)
    { req with URL := { req.URL with RawQuery := Values.Encode q } }

/-- Source `Client.Get` (client.go:35): `Except.error` is the construction
error of `http.NewRequest`. -/
def Client.Get (env : Env) (c : Client) (url : GoString) (query : List StrMap)
    (tr : List Event) : Except GoError (Outcome (Option HttpResponse)) :=
  match env.NewRequest (ascii "GET") url with
  | .error e => .error e
  | .ok req => .ok (Client.Do env c (Client.mergeQuery req query) tr)

/-- Source `Client.Request` (client.go:56): `none` is the construction
error. -/
def Client.Request (env : Env) (c : Client) (method url : GoString) (now : List Bool)
    (tr : List Event) : Except GoError Sys :=
  match env.NewRequest method url with
  | .error e => .error e
  | .ok req => .ok (Client.AsyncDo env c req now tr)

/-! ## Calls on a Holder -/

/-- A step of the caller of a Holder, or of the scheduler:
* a call a user of the package can make on the Holder or on its decorator
  (`h.Chain().SetHeader(k, v)` and so on), and `dispatch` for the internal
  `h.do()`;
* `edit f`: a change of the request made through a pointer to it (the caller
  keeps the pointer it handed to `AsyncDo`, and the decorator embeds it);
* `yield`: the scheduler lets the goroutine of `Holder.do` run.
A resolver is given by its name and by the steps that happen while it
runs. -/
inductive Call where
  | dispatch
  | GetResponse
  | Then (cb : Nat) (body : List Call)
  | Catch (cb : Nat) (body : List Call)
  | Before (body : List Call)
  | Chain
  | SetHeader (key value : GoString)
  | AddHeader (key value : GoString)
  | SetQuery (key value : GoString)
  | Json (marshaler : Marshaler)
  | edit (f : Request → Request)
  | yield

/-- A decorator method: `h.Chain()` and then the change of the request. -/
def Holder.mutate (f : Request → Request) (s : Sys) : Sys :=
  { s with holder := { Holder.Chain s.holder with req := f s.holder.req } }

/-- A change of the request through a pointer to it. -/
def Sys.edit (f : Request → Request) (s : Sys) : Sys :=
  { s with holder := { s.holder with req := f s.holder.req } }

/-- The call `h.Chain()`. -/
def Sys.chain (s : Sys) : Sys :=
  { s with holder := Holder.Chain s.holder }

mutual
/-- One step. -/
def runCall : Call → Sys → Outcome Unit
  | .dispatch, s => .returned (Holder.do s) ()
  | .GetResponse, s => (Holder.GetResponse s).andThen fun s1 _ => .returned s1 ()
  | .Then cb body, s => Holder.Then cb (runCalls body) s
  | .Catch cb body, s => Holder.Catch cb (runCalls body) s
  | .Before body, s => runCalls body (Sys.chain s)
  | .Chain, s => .returned (Sys.chain s) ()
  | .SetHeader k v, s => .returned (Holder.mutate (fun r => SimpleDelayRequest.SetHeader r k v) s) ()
  | .AddHeader k v, s => .returned (Holder.mutate (fun r => SimpleDelayRequest.AddHeader r k v) s) ()
  | .SetQuery k v, s => .returned (Holder.mutate (fun r => SimpleDelayRequest.SetQuery r k v) s) ()
  | .Json m, s => .returned (Holder.mutate (fun r => SimpleDelayRequest.Json r m) s) ()
  | .edit f, s => .returned (Sys.edit f s) ()
  | .yield, s => .returned (Sys.runGoroutine s) ()
/-- Steps one after the other; what follows a call that does not return does
not run. -/
def runCalls : List Call → Sys → Outcome Unit
  | [], s => .returned s ()
  | c :: cs, s => (runCall c s).andThen fun s1 _ => runCalls cs s1
end

mutual
/-- Every change of the request the step makes, also inside resolvers, is
one that `A` allows. -/
def Call.All (A : (Request → Request) → Prop) : Call → Prop
  | .dispatch => True
  | .GetResponse => True
  | .Then _ body => allCalls A body
  | .Catch _ body => allCalls A body
  | .Before body => allCalls A body
  | .Chain => True
  | .SetHeader k v => A (fun r => SimpleDelayRequest.SetHeader r k v)
  | .AddHeader k v => A (fun r => SimpleDelayRequest.AddHeader r k v)
  | .SetQuery k v => A (fun r => SimpleDelayRequest.SetQuery r k v)
  | .Json m => A (fun r => SimpleDelayRequest.Json r m)
  | .edit f => A f
  | .yield => True
/-- Every step of the list makes allowed changes only. -/
def allCalls (A : (Request → Request) → Prop) : List Call → Prop
  | [] => True
  | c :: cs => Call.All A c ∧ allCalls A cs
end

/-- A change of the request that leaves the values of the header
`User-Agent` as they are. -/
def KeepsUserAgent (f : Request → Request) : Prop :=
  ∀ r, mapIndex (f r).Header (ascii "User-Agent") = mapIndex r.Header (ascii "User-Agent")

/-- The three ways to ask for the dispatch: `h.do()`, `h.GetResponse()` and
`h.Then(...)`. -/
def Call.isDispatchRequest : Call → Bool
  | .dispatch => true
  | .GetResponse => true
  | .Then _ _ => true
  | _ => false

/-! ## Sample data -/

def sampleEnv : Env :=
  { DefaultTransport := fun _ => (some { StatusCode := 200, Body := [] }, none),
    runtimeVersion := ascii "go1.16",
    NewRequest := fun m u =>
      .ok { Method := m, URL := { Rest := u, RawQuery := [] }, Header := ∅, Body := none,
            ContentLength := 0 } }

def failingEnv : Env :=
  { sampleEnv with DefaultTransport := fun _ => (none, some (ascii "timeout")) }

def sampleRequest : Request :=
  { Method := ascii "GET", URL := { Rest := ascii "http://h/p", RawQuery := ascii "a=1" },
    Header := ∅, Body := none, ContentLength := 0 }

/-- Source `NewClient` (client.go:107). -/
def NewClient : Client :=
  { http := none, configInterceptor := none, requestInterceptor := none }

/-! ## Invariants and auxiliary definitions -/

/-- A property of the state that each elementary step of `result.go` keeps,
the changes of the request being those that `A` allows. -/
structure Stable (A : (Request → Request) → Prop) (P : Sys → Prop) : Prop where
  dispatch : ∀ s, P s → P (Holder.do s)
  run : ∀ s, P s → P (Sys.runGoroutine s)
  wait : ∀ s, P s → P (Holder.wait s).sys
  resolving : ∀ s cb res, P s → s.holder.state = resultIdle → s.holder.requested = true →
    P (Sys.setState s resultResolving) ∧
      P (Sys.log (Sys.setState s resultResolving) (Event.thenCb cb res))
  resolved : ∀ s, P s → s.holder.requested = true → P (Sys.setState s resultResolved)
  errResolving : ∀ s cb err, P s → s.holder.errorState = resultIdle →
    P (Sys.setErrorState s resultResolving) ∧
      P (Sys.log (Sys.setErrorState s resultResolving) (Event.catchCb cb err))
  errResolved : ∀ s, P s → P (Sys.setErrorState s resultResolved)
  chain : ∀ s, P s → P (Sys.chain s)
  mutate : ∀ s f, A f → P s → P (Holder.mutate f s)
  edit : ∀ s f, A f → P s → P (Sys.edit f s)

/-- Every change of the request is allowed. -/
def AnyChange (_ : Request → Request) : Prop := True

/-- The state of a Holder made by `Client.AsyncDo`, at any later time.  The
transport client is set.  Before the dispatch nothing has been started, sent
or received.  After it exactly one goroutine has been started; as long as it
has not run, the transport has not been called and nothing has been sent;
once it has run, the transport has been called once and one send has been
issued, and either the value is still on offer or it has been received once
and is cached. -/
structure Wf (s : Sys) : Prop where
  http : s.holder.client.http.isSome = true
  before : s.holder.requested = false →
    s.goroutine = false ∧
    s.trace.countP Event.isSpawn = 0 ∧ s.trace.countP Event.isTransport = 0 ∧
    s.trace.countP Event.isChanSend = 0 ∧ s.trace.countP Event.isChanRecv = 0 ∧
    s.holder.response = none ∧ s.holder.result = none
  after : s.holder.requested = true →
    s.trace.countP Event.isSpawn = 1 ∧
    ((s.goroutine = true ∧ s.trace.countP Event.isTransport = 0 ∧
        s.trace.countP Event.isChanSend = 0 ∧ s.trace.countP Event.isChanRecv = 0 ∧
        s.holder.response = none ∧ s.holder.result = none) ∨
      (s.goroutine = false ∧ s.trace.countP Event.isTransport = 1 ∧
        s.trace.countP Event.isChanSend = 1 ∧
        ((s.holder.response = none ∧ s.holder.result.isSome = true ∧
            s.trace.countP Event.isChanRecv = 0) ∨
          (s.holder.response.isSome = true ∧ s.holder.result = none ∧
            s.trace.countP Event.isChanRecv = 1))))

/-- A trace in which no goroutine has been started and nothing has been sent
or received. -/
def Quiet (tr : List Event) : Prop :=
  tr.countP Event.isSpawn = 0 ∧ tr.countP Event.isTransport = 0 ∧
  tr.countP Event.isChanSend = 0 ∧ tr.countP Event.isChanRecv = 0

/-- A Holder of `Client.AsyncDo` after its dispatch. -/
def Live (s : Sys) : Prop := Wf s ∧ s.holder.requested = true

/-- A Holder made without immediate dispatch. -/
def sampleHolder : Sys := Client.AsyncDo sampleEnv NewClient sampleRequest [] []

/-- A header mutation, then five dispatch requests and two turns of the
scheduler: `do`, `do`, `GetResponse`, `Then`, `do`. -/
def sampleRun : Outcome Unit :=
  runCalls ([Call.Before [Call.SetHeader (ascii "Accept") (ascii "text/plain")]] ++
    Call.dispatch ::
      [Call.dispatch, Call.yield, Call.GetResponse, Call.Then 7 [], Call.yield, Call.dispatch])
    (Client.AsyncDo sampleEnv NewClient sampleRequest [] [])

/-- The JSON text of the object with the one member `x` equal to one. -/
def sampleJson : List Byte := ascii "\x7b\x22x\x22:1\x7d"

/-- A marshaler whose `MarshalJSON` returns `sampleJson` and no error. -/
def sampleMarshaler : Marshaler := { MarshalJSON := (sampleJson, none) }

/-- A request that already has a body, a content type and a content length. -/
def requestWithBody : Request :=
  { sampleRequest with
    Header := Header.Set ∅ (ascii "content-type") (ascii "text/plain"),
    Body := some (ascii "old body"), ContentLength := 8 }

/-- The Holder `Client.AsyncDo` builds, before the `now` test. -/
def freshHolder (env : Env) (c : Client) (req : Request) (tr : List Event) : Sys :=
  { holder :=
      { req := (Client.bootRequest env c req tr).2.1, result := none, response := none,
        client := (Client.bootRequest env c req tr).1,
        state := resultIdle, errorState := 0, sdr := false, requested := false },
    trace := (Client.bootRequest env c req tr).2.2,
    goroutine := false }

/-- Before the dispatch the success resolution has not begun. -/
def IdleUntilDispatch (s : Sys) : Prop :=
  s.holder.requested = false → s.holder.state = resultIdle

/-- No resolver of `Then` has run while `state` is idle and at most one has
run in all; the same for `Catch` and `errorState`. -/
def AtMostOnce (s : Sys) : Prop :=
  s.trace.countP Event.isThenCb ≤ 1 ∧
  (s.holder.state = resultIdle → s.trace.countP Event.isThenCb = 0) ∧
  s.trace.countP Event.isCatchCb ≤ 1 ∧
  (s.holder.errorState = resultIdle → s.trace.countP Event.isCatchCb = 0)

/-- The response `v` is cached and the dispatch is done. -/
def Cached (v : HttpResponse) (s : Sys) : Prop :=
  s.holder.response = some v ∧ s.holder.requested = true

/-- The request carries the identifying header as its only `User-Agent`
value. -/
def Stamped (env : Env) (r : Request) : Prop :=
  mapIndex r.Header (ascii "User-Agent") = [UserAgent env]

/-- The pending request and every request handed to the transport so far
carry the identifying header. -/
def AllStamped (env : Env) (s : Sys) : Prop :=
  Stamped env s.holder.req ∧ ∀ r ∈ sentRequests s.trace, Stamped env r

/-- The goroutine of the dispatch has run, and `l` is what the transport has
been handed. -/
def Sent (l : List Request) (s : Sys) : Prop :=
  sentRequests s.trace = l ∧ s.goroutine = false ∧ s.holder.requested = true

/-- The bytes an escaped string never holds: ampersand, equals sign,
semicolon. -/
def Plain (s : GoString) : Prop := ∀ c ∈ s, c ≠ (38 : Byte) ∧ c ≠ (61 : Byte) ∧ c ≠ (59 : Byte)

/-- The text `Values.Encode` writes for one value of one key. -/
def pairText (p : GoString × GoString) : GoString :=
  QueryEscape p.1 ++ [61] ++ QueryEscape p.2

/-- The step of the buffer in `Values.Encode`. -/
def writePair (buf : GoString) (p : GoString × GoString) : GoString :=
  (if buf.length > 0 then buf ++ [38] else buf) ++ QueryEscape p.1 ++ [61] ++ QueryEscape p.2

/-- The pairs `Values.Encode` writes for the keys `keys`, in order. -/
def pairsOf (v : StrMap) (keys : List GoString) : List (GoString × GoString) :=
  keys.flatMap (fun k => (mapIndex v k).map (fun x => (k, x)))

/-- The number of values of a map, all keys together. -/
def valueCount (v : StrMap) : Nat :=
  (v.keys.map (fun k => (mapIndex v k).length)).sum

/-- Every key of the map has a value. -/
def NoEmpty (m : StrMap) : Prop := ∀ k, k ∈ m.keys → mapIndex m k ≠ []

/-- The call-time query of the example, the key `a` put into the map first. -/
def sampleQuery : StrMap :=
  ((∅ : StrMap).insert (ascii "a") [ascii "2", ascii "3"]).insert (ascii "b") [ascii "4"]

/-- The same map, visited by `range` in the other order. -/
def sampleQuerySwapped : StrMap :=
  ((∅ : StrMap).insert (ascii "b") [ascii "4"]).insert (ascii "a") [ascii "2", ascii "3"]

/-- A request whose query gives the key `k` two values. -/
def twoValuedRequest : Request :=
  { sampleRequest with URL := { Rest := ascii "http://h/p", RawQuery := ascii "k=a&z=1&k=b" } }

/-- A query of 10001 pieces: ten thousand ampersands and then `tail`. -/
def longQuery (tail : GoString) : GoString := List.replicate 10000 (38 : Byte) ++ tail

/-- A request whose query is `longQuery tail`. -/
def longRequest (tail : GoString) : Request :=
  { sampleRequest with URL := { Rest := ascii "http://h/p", RawQuery := longQuery tail } }

/-- The call-time query with the one pair `b=4`. -/
def smallQuery : StrMap := (∅ : StrMap).insert (ascii "b") [ascii "4"]

/-- Steps on a Holder, among them a header change before the dispatch and
changes after it, none on `User-Agent`, with the goroutine let run in
between. -/
def sampleSteps : List Call :=
  [Call.Before [Call.SetHeader (ascii "Accept") (ascii "text/plain")],
   Call.AddHeader (ascii "X-Trace") (ascii "1"), Call.dispatch,
   Call.SetQuery (ascii "page") (ascii "2"), Call.yield,
   Call.Then 1 [Call.SetHeader (ascii "Accept") (ascii "text/html")]]

/-! # Theorems -/

/-! ## Properties that every call keeps -/

theorem andThen_sys {α β : Type} {P : Sys → Prop} (o : Outcome α) (f : Sys → α → Outcome β)
    (h : P o.sys) (hf : ∀ s v, o = .returned s v → P (f s v).sys) : P (o.andThen f).sys := by
  cases o with
  | returned s v => exact hf s v rfl
  | parked s => exact h
  | panicked s => exact h

theorem chain_fields (h : Holder) : (Holder.Chain h).client = h.client ∧
    (Holder.Chain h).requested = h.requested ∧ (Holder.Chain h).response = h.response ∧
    (Holder.Chain h).result = h.result ∧ (Holder.Chain h).req = h.req ∧
    (Holder.Chain h).state = h.state ∧ (Holder.Chain h).errorState = h.errorState := by
  unfold Holder.Chain
  split <;> simp

theorem do_state (s : Sys) : (Holder.do s).holder.state = s.holder.state ∧
    (Holder.do s).holder.errorState = s.holder.errorState := by
  unfold Holder.do
  split <;> exact ⟨rfl, rfl⟩

theorem do_requested (s : Sys) (h : s.holder.requested = true) : Holder.do s = s := by
  simp [Holder.do, h]

theorem do_fresh (s : Sys) (h : s.holder.requested = false) :
    Holder.do s =
      { holder := { s.holder with requested := true }, trace := s.trace ++ [Event.spawn],
        goroutine := true } := by
  simp [Holder.do, h]

theorem do_sets_requested (s : Sys) : (Holder.do s).holder.requested = true := by
  cases hreq : s.holder.requested with
  | true => rw [do_requested s hreq]; exact hreq
  | false => rw [do_fresh s hreq]

theorem do_idem (s : Sys) : Holder.do (Holder.do s) = Holder.do s :=
  do_requested _ (do_sets_requested s)

theorem run_idle (s : Sys) (h : s.goroutine = false) : Sys.runGoroutine s = s := by
  simp [Sys.runGoroutine, h]

theorem run_fresh (s : Sys) (hc : GoHttpClient) (h : s.goroutine = true)
    (hh : s.holder.client.http = some hc) :
    Sys.runGoroutine s =
      { holder := { s.holder with sdr := true, result := some (sentValue hc s.holder.req) },
        trace := s.trace ++ [Event.transport s.holder.req,
          Event.chanSend (sentValue hc s.holder.req)],
        goroutine := false } := by
  obtain ⟨⟨req, result, response, client, state, errorState, sdr, requested⟩, trace, g⟩ := s
  simp only at h hh
  subst h
  cases sdr <;> simp [Sys.runGoroutine, Holder.Chain, hh, sentValue]

theorem run_fields (s : Sys) :
    (Sys.runGoroutine s).holder.client = s.holder.client ∧
    (Sys.runGoroutine s).holder.requested = s.holder.requested ∧
    (Sys.runGoroutine s).holder.response = s.holder.response ∧
    (Sys.runGoroutine s).holder.req = s.holder.req ∧
    (Sys.runGoroutine s).holder.state = s.holder.state ∧
    (Sys.runGoroutine s).holder.errorState = s.holder.errorState ∧
    (Sys.runGoroutine s).goroutine = false := by
  have hc := chain_fields s.holder
  unfold Sys.runGoroutine
  split
  · split
    · exact ⟨hc.1, hc.2.1, hc.2.2.1, hc.2.2.2.2.1, hc.2.2.2.2.2.1, hc.2.2.2.2.2.2, rfl⟩
    · exact ⟨hc.1, hc.2.1, hc.2.2.1, hc.2.2.2.2.1, hc.2.2.2.2.2.1, hc.2.2.2.2.2.2, rfl⟩
  · rename_i h
    exact ⟨rfl, rfl, rfl, rfl, rfl, rfl, by simpa using h⟩

theorem run_countP (s : Sys) (p : Event → Bool) (h1 : ∀ r, p (Event.transport r) = false)
    (h2 : ∀ v, p (Event.chanSend v) = false) :
    (Sys.runGoroutine s).trace.countP p = s.trace.countP p := by
  unfold Sys.runGoroutine
  split
  · split
    · rfl
    · simp [List.countP_append, h1, h2]
  · rfl

theorem receive_fields (s : Sys) :
    (Holder.receive s).sys.holder.client = s.holder.client ∧
    (Holder.receive s).sys.holder.requested = s.holder.requested ∧
    (Holder.receive s).sys.holder.req = s.holder.req ∧
    (Holder.receive s).sys.holder.state = s.holder.state ∧
    (Holder.receive s).sys.holder.errorState = s.holder.errorState ∧
    (Holder.receive s).sys.goroutine = s.goroutine := by
  unfold Holder.receive
  split <;> exact ⟨rfl, rfl, rfl, rfl, rfl, rfl⟩

theorem receive_countP (s : Sys) (p : Event → Bool) (h : ∀ v, p (Event.chanRecv v) = false) :
    (Holder.receive s).sys.trace.countP p = s.trace.countP p := by
  unfold Holder.receive
  split
  · simp [Outcome.sys, List.countP_append, h]
  · rfl

theorem wait_cached (v : HttpResponse) (s : Sys) (h : s.holder.response = some v) :
    Holder.wait s = .returned s () := by
  simp [Holder.wait, h]

theorem wait_receive (s : Sys) (h : s.holder.response = none) :
    Holder.wait s = Holder.receive (Sys.runGoroutine s) := by
  simp [Holder.wait, h]

/-- What `Holder.wait` leaves alone. -/
theorem wait_fields (s : Sys) :
    (Holder.wait s).sys.holder.client = s.holder.client ∧
    (Holder.wait s).sys.holder.requested = s.holder.requested ∧
    (Holder.wait s).sys.holder.req = s.holder.req ∧
    (Holder.wait s).sys.holder.state = s.holder.state ∧
    (Holder.wait s).sys.holder.errorState = s.holder.errorState := by
  cases hr : s.holder.response with
  | some v => rw [wait_cached v s hr]; exact ⟨rfl, rfl, rfl, rfl, rfl⟩
  | none =>
    rw [wait_receive s hr]
    have h1 := receive_fields (Sys.runGoroutine s)
    have h2 := run_fields s
    exact ⟨h1.1.trans h2.1, h1.2.1.trans h2.2.1, h1.2.2.1.trans h2.2.2.2.1,
      h1.2.2.2.1.trans h2.2.2.2.2.1, h1.2.2.2.2.1.trans h2.2.2.2.2.2.1⟩

theorem wait_state (s : Sys) : (Holder.wait s).sys.holder.state = s.holder.state ∧
    (Holder.wait s).sys.holder.errorState = s.holder.errorState :=
  ⟨(wait_fields s).2.2.2.1, (wait_fields s).2.2.2.2⟩

theorem wait_requested (s : Sys) :
    (Holder.wait s).sys.holder.requested = s.holder.requested :=
  (wait_fields s).2.1

theorem wait_countP (s : Sys) (p : Event → Bool) (h1 : ∀ r, p (Event.transport r) = false)
    (h2 : ∀ v, p (Event.chanSend v) = false) (h3 : ∀ v, p (Event.chanRecv v) = false) :
    (Holder.wait s).sys.trace.countP p = s.trace.countP p := by
  cases hr : s.holder.response with
  | some v => rw [wait_cached v s hr]; rfl
  | none => rw [wait_receive s hr, receive_countP _ p h3, run_countP s p h1 h2]

/-- A property kept by the goroutine body and by the receive is kept by
`Holder.wait`. -/
theorem wait_keeps {P : Sys → Prop} (hrun : ∀ s, P s → P (Sys.runGoroutine s))
    (hrecv : ∀ s, P s → P (Holder.receive s).sys) (s : Sys) (h : P s) :
    P (Holder.wait s).sys := by
  cases hr : s.holder.response with
  | some v => rw [wait_cached v s hr]; exact h
  | none => rw [wait_receive s hr]; exact hrecv _ (hrun s h)

theorem Stable.getResponse {A : (Request → Request) → Prop} {P : Sys → Prop} (hP : Stable A P)
    (s : Sys) (h : P s) : P (Holder.GetResponse s).sys :=
  andThen_sys _ _ (hP.wait _ (hP.dispatch s h)) (fun s1 v hv => by
    have := hP.wait _ (hP.dispatch s h)
    rw [hv] at this
    exact this)

theorem Stable.then_ {A : (Request → Request) → Prop} {P : Sys → Prop} (hP : Stable A P)
    (cb : Nat) (body : Sys → Outcome Unit)
    (hbody : ∀ s, P s → P (body s).sys)
    (hbodyT : ∀ s, s.holder.requested = true → (body s).sys.holder.requested = true)
    (s : Sys) (h : P s) :
    P (Holder.Then cb body s).sys := by
  unfold Holder.Then
  split
  · exact h
  · rename_i hidle
    have hidle : s.holder.state = resultIdle := by simpa using hidle
    have h1 := hP.wait _ (hP.dispatch s h)
    have hst : (Holder.wait (Holder.do s)).sys.holder.state = resultIdle := by
      rw [(wait_state _).1, (do_state _).1, hidle]
    have hrq : (Holder.wait (Holder.do s)).sys.holder.requested = true :=
      (wait_requested _).trans (do_sets_requested s)
    refine andThen_sys _ _ h1 (fun s1 v hv => ?_)
    rw [hv] at h1 hst hrq
    have h2 := fun res => hP.resolving s1 cb res h1 hst hrq
    dsimp only
    split
    · exact (h2 ⟨none, none⟩).1
    · rename_i res hres
      refine andThen_sys _ _ (hbody _ (h2 res).2) (fun s3 v3 hv3 => ?_)
      have h4 := hbody _ (h2 res).2
      have h5 := hbodyT (Sys.log (Sys.setState s1 resultResolving) (Event.thenCb cb res)) hrq
      rw [hv3] at h4 h5
      exact hP.resolved s3 h4 h5

theorem Stable.catch_ {A : (Request → Request) → Prop} {P : Sys → Prop} (hP : Stable A P)
    (cb : Nat) (body : Sys → Outcome Unit)
    (hbody : ∀ s, P s → P (body s).sys) (s : Sys) (h : P s) :
    P (Holder.Catch cb body s).sys := by
  unfold Holder.Catch
  split
  · exact h
  · rename_i hidle
    have hidle : s.holder.errorState = resultIdle := by simpa using hidle
    have h1 := hP.wait s h
    have hst : (Holder.wait s).sys.holder.errorState = resultIdle := by
      rw [(wait_state _).2, hidle]
    refine andThen_sys _ _ h1 (fun s1 v hv => ?_)
    rw [hv] at h1 hst
    have h2 := hP.errResolving s1 cb
    dsimp only
    split
    · exact (h2 [] h1 hst).1
    · split
      · exact (h2 [] h1 hst).1
      · rename_i err herr
        refine andThen_sys _ _ (hbody _ (h2 err h1 hst).2) (fun s3 v3 hv3 => ?_)
        have h4 := hbody _ (h2 err h1 hst).2
        rw [hv3] at h4
        exact hP.errResolved s3 h4

/-- Once dispatched, always dispatched. -/
theorem requested_stable (A : (Request → Request) → Prop) :
    Stable A (fun s => s.holder.requested = true) where
  dispatch := fun s _ => do_sets_requested s
  run := fun s h => ((run_fields s).2.1).trans h
  wait := fun s h => (wait_requested s).trans h
  resolving := fun _ _ _ h _ _ => ⟨h, h⟩
  resolved := fun _ h _ => h
  errResolving := fun _ _ _ h _ => ⟨h, h⟩
  errResolved := fun _ h => h
  chain := fun s h => ((chain_fields s.holder).2.1).trans h
  mutate := fun s _ _ h => ((chain_fields s.holder).2.1).trans h
  edit := fun _ _ _ h => h

theorem Stable.and {A : (Request → Request) → Prop} {P Q : Sys → Prop} (hP : Stable A P)
    (hQ : Stable A Q) : Stable A (fun s => P s ∧ Q s) where
  dispatch := fun s h => ⟨hP.dispatch s h.1, hQ.dispatch s h.2⟩
  run := fun s h => ⟨hP.run s h.1, hQ.run s h.2⟩
  wait := fun s h => ⟨hP.wait s h.1, hQ.wait s h.2⟩
  resolving := fun s cb res h hi hr =>
    ⟨⟨(hP.resolving s cb res h.1 hi hr).1, (hQ.resolving s cb res h.2 hi hr).1⟩,
     ⟨(hP.resolving s cb res h.1 hi hr).2, (hQ.resolving s cb res h.2 hi hr).2⟩⟩
  resolved := fun s h hr => ⟨hP.resolved s h.1 hr, hQ.resolved s h.2 hr⟩
  errResolving := fun s cb err h hi =>
    ⟨⟨(hP.errResolving s cb err h.1 hi).1, (hQ.errResolving s cb err h.2 hi).1⟩,
     ⟨(hP.errResolving s cb err h.1 hi).2, (hQ.errResolving s cb err h.2 hi).2⟩⟩
  errResolved := fun s h => ⟨hP.errResolved s h.1, hQ.errResolved s h.2⟩
  chain := fun s h => ⟨hP.chain s h.1, hQ.chain s h.2⟩
  mutate := fun s f hf h => ⟨hP.mutate s f hf h.1, hQ.mutate s f hf h.2⟩
  edit := fun s f hf h => ⟨hP.edit s f hf h.1, hQ.edit s f hf h.2⟩

theorem Stable.seq {P : Sys → Prop} {α β : Type} (o : Outcome α) (f : Sys → α → Outcome β)
    (ho : P o.sys) (hf : ∀ s v, P s → P (f s v).sys) : P (o.andThen f).sys :=
  andThen_sys o f ho (fun s v hv => hf s v (by rw [hv] at ho; exact ho))

mutual
theorem Stable.runCall_both {A : (Request → Request) → Prop} {P : Sys → Prop}
    (hP : Stable A P) :
    ∀ (c : Call) (s : Sys),
      (s.holder.requested = true → (runCall c s).sys.holder.requested = true) ∧
      (Call.All A c → P s → P (runCall c s).sys)
  | .dispatch, s => by
    rw [Httpclient.runCall]
    exact ⟨(requested_stable A).dispatch s, fun _ => hP.dispatch s⟩
  | .GetResponse, s => by
    rw [Httpclient.runCall]
    exact ⟨fun h => Stable.seq (P := fun s => s.holder.requested = true) _ _
             ((requested_stable A).getResponse s h) (fun _ _ h1 => h1),
           fun _ h => Stable.seq _ _ (hP.getResponse s h) (fun _ _ h1 => h1)⟩
  | .Then cb body, s => by
    rw [Httpclient.runCall]
    have ih := fun s1 => Stable.runCalls_both hP body s1
    exact ⟨(requested_stable A).then_ cb _ (fun s1 => (ih s1).1) (fun s1 => (ih s1).1) s,
           fun ha => hP.then_ cb _ (fun s1 => (ih s1).2 (by rw [Call.All] at ha; exact ha))
             (fun s1 => (ih s1).1) s⟩
  | .Catch cb body, s => by
    rw [Httpclient.runCall]
    have ih := fun s1 => Stable.runCalls_both hP body s1
    exact ⟨(requested_stable A).catch_ cb _ (fun s1 => (ih s1).1) s,
           fun ha => hP.catch_ cb _ (fun s1 => (ih s1).2 (by rw [Call.All] at ha; exact ha)) s⟩
  | .Before body, s => by
    rw [Httpclient.runCall]
    have ih := Stable.runCalls_both hP body (Sys.chain s)
    exact ⟨fun h => ih.1 ((requested_stable A).chain s h),
           fun ha h => ih.2 (by rw [Call.All] at ha; exact ha) (hP.chain s h)⟩
  | .Chain, s => by
    rw [Httpclient.runCall]
    exact ⟨(requested_stable A).chain s, fun _ => hP.chain s⟩
  | .SetHeader k v, s => by
    rw [Httpclient.runCall]
    exact ⟨fun h => ((chain_fields s.holder).2.1).trans h,
           fun ha => hP.mutate s (fun r => SimpleDelayRequest.SetHeader r k v)
             (by rw [Call.All] at ha; exact ha)⟩
  | .AddHeader k v, s => by
    rw [Httpclient.runCall]
    exact ⟨fun h => ((chain_fields s.holder).2.1).trans h,
           fun ha => hP.mutate s (fun r => SimpleDelayRequest.AddHeader r k v)
             (by rw [Call.All] at ha; exact ha)⟩
  | .SetQuery k v, s => by
    rw [Httpclient.runCall]
    exact ⟨fun h => ((chain_fields s.holder).2.1).trans h,
           fun ha => hP.mutate s (fun r => SimpleDelayRequest.SetQuery r k v)
             (by rw [Call.All] at ha; exact ha)⟩
  | .Json m, s => by
    rw [Httpclient.runCall]
    exact ⟨fun h => ((chain_fields s.holder).2.1).trans h,
           fun ha => hP.mutate s (fun r => SimpleDelayRequest.Json r m)
             (by rw [Call.All] at ha; exact ha)⟩
  | .edit f, s => by
    rw [Httpclient.runCall]
    exact ⟨fun h => h, fun ha => hP.edit s f (by rw [Call.All] at ha; exact ha)⟩
  | .yield, s => by
    rw [Httpclient.runCall]
    exact ⟨(requested_stable A).run s, fun _ => hP.run s⟩
theorem Stable.runCalls_both {A : (Request → Request) → Prop} {P : Sys → Prop}
    (hP : Stable A P) :
    ∀ (cs : List Call) (s : Sys),
      (s.holder.requested = true → (runCalls cs s).sys.holder.requested = true) ∧
      (allCalls A cs → P s → P (runCalls cs s).sys)
  | [], s => by
    rw [Httpclient.runCalls]
    exact ⟨fun h => h, fun _ h => h⟩
  | c :: cs, s => by
    rw [Httpclient.runCalls]
    have h1 := Stable.runCall_both hP c s
    have ih := fun s1 => Stable.runCalls_both hP cs s1
    exact ⟨fun h => Stable.seq (P := fun s => s.holder.requested = true) _ _ (h1.1 h)
             (fun s1 _ h2 => (ih s1).1 h2),
           fun ha h => Stable.seq _ _ (h1.2 (by rw [allCalls] at ha; exact ha.1) h)
             (fun s1 _ h2 => (ih s1).2 (by rw [allCalls] at ha; exact ha.2) h2)⟩
end

mutual
theorem call_anyChange : ∀ c : Call, Call.All AnyChange c
  | .dispatch => by rw [Call.All]; trivial
  | .GetResponse => by rw [Call.All]; trivial
  | .Then _ body => by rw [Call.All]; exact calls_anyChange body
  | .Catch _ body => by rw [Call.All]; exact calls_anyChange body
  | .Before body => by rw [Call.All]; exact calls_anyChange body
  | .Chain => by rw [Call.All]; trivial
  | .SetHeader _ _ => by rw [Call.All]; trivial
  | .AddHeader _ _ => by rw [Call.All]; trivial
  | .SetQuery _ _ => by rw [Call.All]; trivial
  | .Json _ => by rw [Call.All]; trivial
  | .edit _ => by rw [Call.All]; trivial
  | .yield => by rw [Call.All]; trivial
theorem calls_anyChange : ∀ cs : List Call, allCalls AnyChange cs
  | [] => by rw [allCalls]; trivial
  | c :: cs => by rw [allCalls]; exact ⟨call_anyChange c, calls_anyChange cs⟩
end

theorem Stable.runCall {P : Sys → Prop} (hP : Stable AnyChange P) (c : Call) (s : Sys)
    (h : P s) : P (Httpclient.runCall c s).sys :=
  (hP.runCall_both c s).2 (call_anyChange c) h

theorem Stable.runCalls {P : Sys → Prop} (hP : Stable AnyChange P) (cs : List Call) (s : Sys)
    (h : P s) : P (Httpclient.runCalls cs s).sys :=
  (hP.runCalls_both cs s).2 (calls_anyChange cs) h

/-! ## The dispatch invariant -/

theorem Wf.of_fields {s t : Sys} (h : Wf s) (h1 : t.holder.client = s.holder.client)
    (h2 : t.holder.requested = s.holder.requested) (h3 : t.holder.response = s.holder.response)
    (h4 : t.holder.result = s.holder.result)
    (h5 : t.trace.countP Event.isSpawn = s.trace.countP Event.isSpawn)
    (h6 : t.trace.countP Event.isTransport = s.trace.countP Event.isTransport)
    (h7 : t.trace.countP Event.isChanSend = s.trace.countP Event.isChanSend)
    (h8 : t.trace.countP Event.isChanRecv = s.trace.countP Event.isChanRecv)
    (h9 : t.goroutine = s.goroutine) : Wf t := by
  constructor
  · rw [h1]; exact h.http
  · rw [h2, h3, h4, h5, h6, h7, h8, h9]; exact h.before
  · rw [h2, h3, h4, h5, h6, h7, h8, h9]; exact h.after

theorem Wf.dispatch (s : Sys) (h : Wf s) : Wf (Holder.do s) := by
  cases hreq : s.holder.requested with
  | true => rw [do_requested s hreq]; exact h
  | false =>
    obtain ⟨b0, b1, b2, b3, b4, b5, b6⟩ := h.before hreq
    rw [do_fresh s hreq]
    constructor
    · exact h.http
    · intro hf
      simp at hf
    · intro _
      refine ⟨?_, Or.inl ⟨rfl, ?_, ?_, ?_, b5, b6⟩⟩
      · simp [List.countP_append, b1, Event.isSpawn]
      · simp [List.countP_append, b2, Event.isTransport]
      · simp [List.countP_append, b3, Event.isChanSend]
      · simp [List.countP_append, b4, Event.isChanRecv]

theorem Wf.run (s : Sys) (h : Wf s) : Wf (Sys.runGoroutine s) := by
  cases hg : s.goroutine with
  | false => rw [run_idle s hg]; exact h
  | true =>
    cases hreq : s.holder.requested with
    | false => have := (h.before hreq).1; rw [hg] at this; simp at this
    | true =>
      obtain ⟨a1, a2⟩ := h.after hreq
      have hhttp := h.http
      cases hh : s.holder.client.http with
      | none => rw [hh] at hhttp; simp at hhttp
      | some hc =>
        rw [run_fresh s hc hg hh]
        rcases a2 with ⟨_, c1, c2, c3, c4, _⟩ | ⟨c0, _⟩
        · constructor
          · exact hhttp
          · intro hf
            simp [hreq] at hf
          · intro _
            refine ⟨?_, Or.inr ⟨rfl, ?_, ?_, Or.inl ⟨c4, rfl, ?_⟩⟩⟩
            · simp [List.countP_append, a1, Event.isSpawn]
            · simp [List.countP_append, c1, Event.isTransport]
            · simp [List.countP_append, c2, Event.isChanSend]
            · simp [List.countP_append, c3, Event.isChanRecv]
        · rw [hg] at c0; simp at c0

theorem Wf.receive (s : Sys) (h : Wf s) : Wf (Holder.receive s).sys := by
  unfold Holder.receive
  split
  · rename_i v hv
    simp only [Outcome.sys]
    cases hreq : s.holder.requested with
    | false => have := (h.before hreq).2.2.2.2.2.2; rw [hv] at this; simp at this
    | true =>
      obtain ⟨a1, a2⟩ := h.after hreq
      rcases a2 with ⟨_, _, _, _, _, c5⟩ | ⟨c0, c1, c2, c3⟩
      · rw [hv] at c5; simp at c5
      · rcases c3 with ⟨_, _, d3⟩ | ⟨_, d2, _⟩
        · constructor
          · exact h.http
          · intro hf
            simp [hreq] at hf
          · intro _
            refine ⟨?_, Or.inr ⟨c0, ?_, ?_, Or.inr ⟨rfl, rfl, ?_⟩⟩⟩
            · simp [List.countP_append, a1, Event.isSpawn]
            · simp [List.countP_append, c1, Event.isTransport]
            · simp [List.countP_append, c2, Event.isChanSend]
            · simp [List.countP_append, d3, Event.isChanRecv]
        · rw [hv] at d2; simp at d2
  · exact h

theorem Wf.wait (s : Sys) (h : Wf s) : Wf (Holder.wait s).sys :=
  wait_keeps Wf.run Wf.receive s h

theorem Wf.stable (A : (Request → Request) → Prop) : Stable A Wf where
  dispatch := Wf.dispatch
  run := Wf.run
  wait := Wf.wait
  resolving := fun s cb res h _ _ =>
    ⟨h.of_fields rfl rfl rfl rfl rfl rfl rfl rfl rfl,
     h.of_fields rfl rfl rfl rfl
      (by simp [Sys.log, Sys.setState, List.countP_append, Event.isSpawn])
      (by simp [Sys.log, Sys.setState, List.countP_append, Event.isTransport])
      (by simp [Sys.log, Sys.setState, List.countP_append, Event.isChanSend])
      (by simp [Sys.log, Sys.setState, List.countP_append, Event.isChanRecv]) rfl⟩
  resolved := fun s h _ => h.of_fields rfl rfl rfl rfl rfl rfl rfl rfl rfl
  errResolving := fun s cb err h _ =>
    ⟨h.of_fields rfl rfl rfl rfl rfl rfl rfl rfl rfl,
     h.of_fields rfl rfl rfl rfl
      (by simp [Sys.log, Sys.setErrorState, List.countP_append, Event.isSpawn])
      (by simp [Sys.log, Sys.setErrorState, List.countP_append, Event.isTransport])
      (by simp [Sys.log, Sys.setErrorState, List.countP_append, Event.isChanSend])
      (by simp [Sys.log, Sys.setErrorState, List.countP_append, Event.isChanRecv]) rfl⟩
  errResolved := fun s h => h.of_fields rfl rfl rfl rfl rfl rfl rfl rfl rfl
  chain := fun s h =>
    h.of_fields (chain_fields _).1 (chain_fields _).2.1 (chain_fields _).2.2.1
      (chain_fields _).2.2.2.1 rfl rfl rfl rfl rfl
  mutate := fun s f _ h =>
    h.of_fields (chain_fields _).1 (chain_fields _).2.1 (chain_fields _).2.2.1
      (chain_fields _).2.2.2.1 rfl rfl rfl rfl rfl
  edit := fun s f _ h => h.of_fields rfl rfl rfl rfl rfl rfl rfl rfl rfl

theorem live_stable (A : (Request → Request) → Prop) : Stable A Live :=
  (Wf.stable A).and (requested_stable A)

/-- Once the goroutine has run, the counts are final. -/
theorem Live.settled (s : Sys) (h : Live s) :
    (Sys.runGoroutine s).trace.countP Event.isSpawn = 1 ∧
    (Sys.runGoroutine s).trace.countP Event.isTransport = 1 ∧
    (Sys.runGoroutine s).trace.countP Event.isChanSend = 1 ∧
    (Sys.runGoroutine s).trace.countP Event.isChanRecv ≤ 1 := by
  have h1 := (live_stable AnyChange).run s h
  obtain ⟨a1, a2⟩ := h1.1.after h1.2
  have hg := (run_fields s).2.2.2.2.2.2
  rcases a2 with ⟨c0, _⟩ | ⟨_, c1, c2, c3⟩
  · rw [hg] at c0; simp at c0
  · refine ⟨a1, c1, c2, ?_⟩
    rcases c3 with ⟨_, _, d⟩ | ⟨_, _, d⟩ <;> omega

/-- At any moment after the dispatch: one goroutine started, at most one
transport call, at most one send, at most one receive; and all of it done
when the goroutine is no longer waiting to run. -/
theorem Live.counts (s : Sys) (h : Live s) :
    s.trace.countP Event.isSpawn = 1 ∧
    s.trace.countP Event.isTransport ≤ 1 ∧
    s.trace.countP Event.isChanSend ≤ 1 ∧
    s.trace.countP Event.isChanRecv ≤ 1 ∧
    (s.goroutine = false →
      s.trace.countP Event.isTransport = 1 ∧ s.trace.countP Event.isChanSend = 1) := by
  obtain ⟨a1, a2⟩ := h.1.after h.2
  rcases a2 with ⟨c0, c1, c2, c3, _⟩ | ⟨_, c1, c2, c3⟩
  · refine ⟨a1, by omega, by omega, by omega, ?_⟩
    intro hg; rw [hg] at c0; simp at c0
  · refine ⟨a1, by omega, by omega, ?_, fun _ => ⟨c1, c2⟩⟩
    rcases c3 with ⟨_, _, d⟩ | ⟨_, _, d⟩ <;> omega

theorem wait_returns (s : Sys) (h : Live s) :
    ∃ s1, Holder.wait s = .returned s1 () ∧ s1.holder.response.isSome = true := by
  cases hr : s.holder.response with
  | some v => exact ⟨s, wait_cached v s hr, by rw [hr]; rfl⟩
  | none =>
    rw [wait_receive s hr]
    have h1 := (live_stable AnyChange).run s h
    have hg := (run_fields s).2.2.2.2.2.2
    have hresp : (Sys.runGoroutine s).holder.response = none := ((run_fields s).2.2.1).trans hr
    obtain ⟨_, a2⟩ := h1.1.after h1.2
    rcases a2 with ⟨c0, _⟩ | ⟨_, _, _, c3⟩
    · rw [hg] at c0; simp at c0
    · rcases c3 with ⟨_, d2, _⟩ | ⟨d1, _, _⟩
      · unfold Holder.receive
        cases hres : (Sys.runGoroutine s).holder.result with
        | none => rw [hres] at d2; simp at d2
        | some v => exact ⟨_, rfl, rfl⟩
      · rw [hresp] at d1; simp at d1

theorem getResponse_returns (s : Sys) (h : Wf s) :
    ∃ s1 v, Holder.GetResponse s = .returned s1 (some v) := by
  have hl : Live (Holder.do s) := ⟨Wf.dispatch s h, do_sets_requested s⟩
  obtain ⟨s1, h1, h2⟩ := wait_returns _ hl
  cases hv : s1.holder.response with
  | none => rw [hv] at h2; simp at h2
  | some v =>
    refine ⟨s1, v, ?_⟩
    simp [Holder.GetResponse, h1, Outcome.andThen, hv]

theorem isReturned_andThen {α β : Type} (o : Outcome α) (f : Sys → α → Outcome β)
    (s : Sys) (v : α) (h : o = .returned s v) (hf : (f s v).isReturned = true) :
    (o.andThen f).isReturned = true := by
  subst h
  exact hf

mutual
theorem runCall_returns : ∀ (c : Call) (s : Sys), Live s → (runCall c s).isReturned = true
  | .dispatch, s, _ => by rw [runCall]; rfl
  | .GetResponse, s, h => by
    rw [runCall]
    obtain ⟨s1, v, h1⟩ := getResponse_returns s h.1
    rw [h1]
    rfl
  | .Then cb body, s, h => by
    rw [runCall]
    unfold Holder.Then
    split
    · rfl
    · rename_i hidle
      have hidle : s.holder.state = resultIdle := by simpa using hidle
      rw [do_requested s h.2]
      obtain ⟨s1, h1, h2⟩ := wait_returns s h
      have hl1 : Live s1 := by
        have := (live_stable AnyChange).wait s h
        rw [h1] at this
        exact this
      have hst : s1.holder.state = resultIdle := by
        have := (wait_state s).1
        rw [h1] at this
        exact this.trans hidle
      refine isReturned_andThen _ _ s1 () h1 ?_
      dsimp only
      split
      · rfl
      · rename_i res hres
        have hl2 := ((live_stable AnyChange).resolving s1 cb res hl1 hst hl1.2).2
        have hb := runCalls_returns body _ hl2
        cases hbody : runCalls body (Sys.log (Sys.setState s1 resultResolving) (Event.thenCb cb res)) with
        | returned s3 u => rfl
        | parked s3 => rw [hbody] at hb; simp [Outcome.isReturned] at hb
        | panicked s3 => rw [hbody] at hb; simp [Outcome.isReturned] at hb
  | .Catch cb body, s, h => by
    rw [runCall]
    unfold Holder.Catch
    split
    · rfl
    · rename_i hidle
      have hidle : s.holder.errorState = resultIdle := by simpa using hidle
      obtain ⟨s1, h1, h2⟩ := wait_returns s h
      have hl1 : Live s1 := by
        have := (live_stable AnyChange).wait s h
        rw [h1] at this
        exact this
      have hst : s1.holder.errorState = resultIdle := by
        have := (wait_state s).2
        rw [h1] at this
        exact this.trans hidle
      refine isReturned_andThen _ _ s1 () h1 ?_
      dsimp only
      split
      · rename_i hnone
        have : s1.holder.response = none := hnone
        rw [this] at h2
        simp at h2
      · split
        · rfl
        · rename_i err herr
          have hl2 := ((live_stable AnyChange).errResolving s1 cb err hl1 hst).2
          have hb := runCalls_returns body _ hl2
          cases hbody : runCalls body (Sys.log (Sys.setErrorState s1 resultResolving) (Event.catchCb cb err)) with
          | returned s3 u => rfl
          | parked s3 => rw [hbody] at hb; simp [Outcome.isReturned] at hb
          | panicked s3 => rw [hbody] at hb; simp [Outcome.isReturned] at hb
  | .Before body, s, h => by
    rw [runCall]
    exact runCalls_returns body _ ((live_stable AnyChange).chain s h)
  | .Chain, s, _ => by rw [runCall]; rfl
  | .SetHeader k v, s, _ => by rw [runCall]; rfl
  | .AddHeader k v, s, _ => by rw [runCall]; rfl
  | .SetQuery k v, s, _ => by rw [runCall]; rfl
  | .Json m, s, _ => by rw [runCall]; rfl
  | .edit f, s, _ => by rw [runCall]; rfl
  | .yield, s, _ => by rw [runCall]; rfl
theorem runCalls_returns : ∀ (cs : List Call) (s : Sys), Live s → (runCalls cs s).isReturned = true
  | [], s, _ => by rw [runCalls]; rfl
  | c :: cs, s, h => by
    rw [runCalls]
    have h1 := runCall_returns c s h
    have h2 := (live_stable AnyChange).runCall c s h
    cases hc : runCall c s with
    | returned s1 u =>
      rw [hc] at h2
      exact runCalls_returns cs s1 h2
    | parked s1 => rw [hc] at h1; simp [Outcome.isReturned] at h1
    | panicked s1 => rw [hc] at h1; simp [Outcome.isReturned] at h1
end

/-! ## The Holder made by `Client.AsyncDo` -/

theorem bootRequest_http (env : Env) (c : Client) (req : Request) (tr : List Event) :
    (Client.bootRequest env c req tr).1.http.isSome = true := by
  obtain ⟨h, ci, ri⟩ := c
  cases h <;> cases ci <;> cases ri <;> simp [Client.bootRequest]

theorem bootRequest_interceptor (env : Env) (c : Client) (req : Request) (tr : List Event) :
    (Client.bootRequest env c req tr).1.requestInterceptor = c.requestInterceptor := by
  obtain ⟨h, ci, ri⟩ := c
  cases h <;> cases ci <;> cases ri <;> simp [Client.bootRequest]

theorem bootRequest_countP (env : Env) (c : Client) (req : Request) (tr : List Event)
    (p : Event → Bool) (h1 : p Event.configIntercept = false)
    (h2 : ∀ r, p (Event.requestIntercept r) = false) :
    (Client.bootRequest env c req tr).2.2.countP p = tr.countP p := by
  obtain ⟨h, ci, ri⟩ := c
  cases h <;> cases ci <;> cases ri <;> simp [Client.bootRequest, List.countP_append, h1, h2]

theorem bootRequest_intercepts (env : Env) (c : Client) (req : Request) (tr : List Event) :
    (Client.bootRequest env c req tr).2.2.countP Event.isRequestIntercept =
      tr.countP Event.isRequestIntercept + (if c.requestInterceptor.isSome then 1 else 0) := by
  obtain ⟨h, ci, ri⟩ := c
  cases h <;> cases ci <;> cases ri <;>
    simp [Client.bootRequest, List.countP_append, Event.isRequestIntercept]

theorem bootRequest_userAgent (env : Env) (c : Client) (req : Request) (tr : List Event) :
    mapIndex (Client.bootRequest env c req tr).2.1.Header (ascii "User-Agent") = [UserAgent env] := by
  have hk : CanonicalMIMEHeaderKey (ascii "User-Agent") = ascii "User-Agent" := by decide
  obtain ⟨h, ci, ri⟩ := c
  cases h <;> cases ci <;> cases ri <;>
    simp [Client.bootRequest, Header.Set, hk, mapIndex, mapAssign]

theorem asyncDo_eq (env : Env) (c : Client) (req : Request) (now : List Bool) (tr : List Event) :
    Client.AsyncDo env c req now tr =
      if now.head? = some true then Holder.do (freshHolder env c req tr)
      else freshHolder env c req tr := rfl

theorem quiet_nil : Quiet [] := ⟨rfl, rfl, rfl, rfl⟩

theorem bootRequest_quiet (env : Env) (c : Client) (req : Request) (tr : List Event)
    (h : Quiet tr) : Quiet (Client.bootRequest env c req tr).2.2 :=
  ⟨(bootRequest_countP env c req tr _ rfl (fun _ => rfl)).trans h.1,
   (bootRequest_countP env c req tr _ rfl (fun _ => rfl)).trans h.2.1,
   (bootRequest_countP env c req tr _ rfl (fun _ => rfl)).trans h.2.2.1,
   (bootRequest_countP env c req tr _ rfl (fun _ => rfl)).trans h.2.2.2⟩

theorem freshHolder_wf (env : Env) (c : Client) (req : Request) (tr : List Event)
    (htr : Quiet tr) : Wf (freshHolder env c req tr) where
  http := bootRequest_http env c req tr
  before := fun _ =>
    ⟨rfl, (bootRequest_quiet env c req tr htr).1, (bootRequest_quiet env c req tr htr).2.1,
     (bootRequest_quiet env c req tr htr).2.2.1, (bootRequest_quiet env c req tr htr).2.2.2,
     rfl, rfl⟩
  after := fun h => by simp [freshHolder] at h

theorem asyncDo_wf_of (env : Env) (c : Client) (req : Request) (now : List Bool)
    (tr : List Event) (htr : Quiet tr) : Wf (Client.AsyncDo env c req now tr) := by
  rw [asyncDo_eq]
  split
  · exact Wf.dispatch _ (freshHolder_wf env c req tr htr)
  · exact freshHolder_wf env c req tr htr

theorem asyncDo_wf (env : Env) (c : Client) (req : Request) (now : List Bool) :
    Wf (Client.AsyncDo env c req now []) :=
  asyncDo_wf_of env c req now [] quiet_nil

theorem asyncDo_idle (env : Env) (c : Client) (req : Request) (now : List Bool) (tr : List Event) :
    (Client.AsyncDo env c req now tr).holder.state = resultIdle ∧
    (Client.AsyncDo env c req now tr).holder.errorState = resultIdle := by
  rw [asyncDo_eq]
  split
  · exact ⟨(do_state _).1, (do_state _).2⟩
  · exact ⟨rfl, rfl⟩

/-- A dispatch request on a Holder whose `state` is idle starts with `h.do()`. -/
theorem dispatchRequest_do (c : Call) (s : Sys) (hc : c.isDispatchRequest = true)
    (hs : s.holder.state = resultIdle) : runCall c s = runCall c (Holder.do s) := by
  cases c with
  | dispatch => rw [runCall, runCall, do_idem]
  | GetResponse => rw [runCall, runCall, Holder.GetResponse, Holder.GetResponse, do_idem]
  | Then cb body =>
    rw [runCall, runCall, Holder.Then, Holder.Then, do_idem, (do_state s).1]
    simp [hs]
  | Catch cb body => simp [Call.isDispatchRequest] at hc
  | Before body => simp [Call.isDispatchRequest] at hc
  | Chain => simp [Call.isDispatchRequest] at hc
  | SetHeader k v => simp [Call.isDispatchRequest] at hc
  | AddHeader k v => simp [Call.isDispatchRequest] at hc
  | SetQuery k v => simp [Call.isDispatchRequest] at hc
  | Json m => simp [Call.isDispatchRequest] at hc
  | edit f => simp [Call.isDispatchRequest] at hc
  | yield => simp [Call.isDispatchRequest] at hc

theorem runCalls_cons (c : Call) (cs : List Call) (s : Sys) :
    runCalls (c :: cs) s = (runCall c s).andThen fun s1 _ => runCalls cs s1 := by
  rw [runCalls]

theorem idleUntilDispatch_stable (A : (Request → Request) → Prop) :
    Stable A IdleUntilDispatch where
  dispatch := fun s _ hf => by rw [do_sets_requested s] at hf; simp at hf
  run := fun s h hf => by
    rw [(run_fields s).2.2.2.2.1]
    exact h (((run_fields s).2.1).symm.trans hf)
  wait := fun s h hf => by
    rw [(wait_state s).1]
    exact h ((wait_requested s).symm.trans hf)
  resolving := fun s _ _ _ _ hr =>
    ⟨fun hf => by simp [Sys.setState, hr] at hf, fun hf => by simp [Sys.log, Sys.setState, hr] at hf⟩
  resolved := fun s _ hr hf => by simp [Sys.setState, hr] at hf
  errResolving := fun s _ _ h _ => ⟨h, h⟩
  errResolved := fun s h => h
  chain := fun s h hf => by
    have h1 : (Holder.Chain s.holder).requested = false := hf
    rw [(chain_fields s.holder).2.1] at h1
    exact ((chain_fields s.holder).2.2.2.2.2.1).trans (h h1)
  mutate := fun s f _ h hf => by
    have h1 : (Holder.Chain s.holder).requested = false := hf
    rw [(chain_fields s.holder).2.1] at h1
    exact ((chain_fields s.holder).2.2.2.2.2.1).trans (h h1)
  edit := fun s f _ h hf => h hf

theorem asyncDo_idleUntilDispatch (env : Env) (c : Client) (req : Request) (now : List Bool) :
    IdleUntilDispatch (Client.AsyncDo env c req now []) :=
  fun _ => (asyncDo_idle env c req now []).1

theorem live_after_first (s : Sys) (hw : Wf s) (hi : IdleUntilDispatch s)
    (first : Call) (rest : List Call) (hfirst : first.isDispatchRequest = true) :
    Live (runCalls (first :: rest) s).sys ∧ (runCalls (first :: rest) s).isReturned = true := by
  cases hr : s.holder.requested with
  | true =>
    exact ⟨(live_stable AnyChange).runCalls _ _ ⟨hw, hr⟩, runCalls_returns _ _ ⟨hw, hr⟩⟩
  | false =>
    have hl : Live (Holder.do s) := ⟨Wf.dispatch _ hw, do_sets_requested _⟩
    have heq : runCalls (first :: rest) s = runCalls (first :: rest) (Holder.do s) := by
      rw [runCalls_cons, runCalls_cons, dispatchRequest_do first _ hfirst (hi hr)]
    rw [heq]
    exact ⟨(live_stable AnyChange).runCalls _ _ hl, runCalls_returns _ _ hl⟩

theorem runCalls_append (cs ds : List Call) (s : Sys) :
    runCalls (cs ++ ds) s = (runCalls cs s).andThen fun t _ => runCalls ds t := by
  induction cs generalizing s with
  | nil => rw [List.nil_append, runCalls]; rfl
  | cons c cs ih =>
    rw [List.cons_append, runCalls, runCalls]
    cases runCall c s with
    | returned t u => exact ih t
    | parked t => rfl
    | panicked t => rfl

/-- C1: take a Holder made by `Client.AsyncDo` (with or without immediate
dispatch) on which any steps `pre` have returned.  After a first dispatch
request (`h.do()`, `GetResponse` or `Then`) and any further steps `rest`, in
which the scheduler may let the goroutine run at any point, every call has
returned and exactly one goroutine has been started.  The transport has been
called at most once and at most one send on the completion channel has been
issued (and at most one receive has happened); it is exactly one transport
call and exactly one send as soon as the goroutine is no longer waiting to
run, and whenever it gets to run.  A further `h.do()` leaves the Holder, the
goroutine and the trace as they are. -/
theorem dispatch_exactly_once (env : Env) (c : Client) (req : Request) (now : List Bool)
    (pre : List Call) (first : Call) (rest : List Call)
    (hpre : (runCalls pre (Client.AsyncDo env c req now [])).isReturned = true)
    (hfirst : first.isDispatchRequest = true) :
    (runCalls (pre ++ first :: rest) (Client.AsyncDo env c req now [])).isReturned = true ∧
    (runCalls (pre ++ first :: rest) (Client.AsyncDo env c req now [])).sys.trace.countP
      Event.isSpawn = 1 ∧
    (runCalls (pre ++ first :: rest) (Client.AsyncDo env c req now [])).sys.trace.countP
      Event.isTransport ≤ 1 ∧
    (runCalls (pre ++ first :: rest) (Client.AsyncDo env c req now [])).sys.trace.countP
      Event.isChanSend ≤ 1 ∧
    (runCalls (pre ++ first :: rest) (Client.AsyncDo env c req now [])).sys.trace.countP
      Event.isChanRecv ≤ 1 ∧
    ((runCalls (pre ++ first :: rest) (Client.AsyncDo env c req now [])).sys.goroutine = false →
      (runCalls (pre ++ first :: rest) (Client.AsyncDo env c req now [])).sys.trace.countP
        Event.isTransport = 1 ∧
      (runCalls (pre ++ first :: rest) (Client.AsyncDo env c req now [])).sys.trace.countP
        Event.isChanSend = 1) ∧
    (Sys.runGoroutine
      (runCalls (pre ++ first :: rest) (Client.AsyncDo env c req now [])).sys).trace.countP
      Event.isSpawn = 1 ∧
    (Sys.runGoroutine
      (runCalls (pre ++ first :: rest) (Client.AsyncDo env c req now [])).sys).trace.countP
      Event.isTransport = 1 ∧
    (Sys.runGoroutine
      (runCalls (pre ++ first :: rest) (Client.AsyncDo env c req now [])).sys).trace.countP
      Event.isChanSend = 1 ∧
    (Sys.runGoroutine
      (runCalls (pre ++ first :: rest) (Client.AsyncDo env c req now [])).sys).trace.countP
      Event.isChanRecv ≤ 1 ∧
    Holder.do (runCalls (pre ++ first :: rest) (Client.AsyncDo env c req now [])).sys =
      (runCalls (pre ++ first :: rest) (Client.AsyncDo env c req now [])).sys ∧
    runCall Call.dispatch (runCalls (pre ++ first :: rest) (Client.AsyncDo env c req now [])).sys =
      .returned (runCalls (pre ++ first :: rest) (Client.AsyncDo env c req now [])).sys () := by
  have hw := (Wf.stable AnyChange).runCalls pre _ (asyncDo_wf env c req now)
  have hi := (idleUntilDispatch_stable AnyChange).runCalls pre _
    (asyncDo_idleUntilDispatch env c req now)
  have hrun : runCalls (pre ++ first :: rest) (Client.AsyncDo env c req now []) =
      runCalls (first :: rest) (runCalls pre (Client.AsyncDo env c req now [])).sys := by
    rw [runCalls_append]
    cases hp : runCalls pre (Client.AsyncDo env c req now []) with
    | returned t u => rfl
    | parked t => rw [hp] at hpre; simp [Outcome.isReturned] at hpre
    | panicked t => rw [hp] at hpre; simp [Outcome.isReturned] at hpre
  rw [hrun]
  obtain ⟨hl, hr⟩ := live_after_first _ hw hi first rest hfirst
  obtain ⟨h1, h2, h3, h4, h5⟩ := Live.counts _ hl
  obtain ⟨g1, g2, g3, g4⟩ := Live.settled _ hl
  refine ⟨hr, h1, h2, h3, h4, h5, g1, g2, g3, g4, do_requested _ hl.2, ?_⟩
  rw [runCall, do_requested _ hl.2]

theorem dispatch_exactly_once_witness :
    sampleRun.isReturned = true ∧
    sampleRun.sys.trace.countP Event.isSpawn = 1 ∧
    sampleRun.sys.trace.countP Event.isTransport ≤ 1 ∧
    sampleRun.sys.trace.countP Event.isChanSend ≤ 1 ∧
    sampleRun.sys.trace.countP Event.isChanRecv ≤ 1 ∧
    (sampleRun.sys.goroutine = false →
      sampleRun.sys.trace.countP Event.isTransport = 1 ∧
      sampleRun.sys.trace.countP Event.isChanSend = 1) ∧
    (Sys.runGoroutine sampleRun.sys).trace.countP Event.isSpawn = 1 ∧
    (Sys.runGoroutine sampleRun.sys).trace.countP Event.isTransport = 1 ∧
    (Sys.runGoroutine sampleRun.sys).trace.countP Event.isChanSend = 1 ∧
    (Sys.runGoroutine sampleRun.sys).trace.countP Event.isChanRecv ≤ 1 ∧
    Holder.do sampleRun.sys = sampleRun.sys ∧
    runCall Call.dispatch sampleRun.sys = .returned sampleRun.sys () :=
  dispatch_exactly_once sampleEnv NewClient sampleRequest []
    [Call.Before [Call.SetHeader (ascii "Accept") (ascii "text/plain")]] Call.dispatch
    [Call.dispatch, Call.yield, Call.GetResponse, Call.Then 7 [], Call.yield, Call.dispatch]
    (by decide) (by decide)

/-! ## Resolvers fire at most once -/

theorem do_countP (s : Sys) (p : Event → Bool) (h1 : p Event.spawn = false) :
    (Holder.do s).trace.countP p = s.trace.countP p := by
  unfold Holder.do
  split
  · rfl
  · simp [List.countP_append, h1]

theorem do_callbacks (s : Sys) :
    (Holder.do s).trace.countP Event.isThenCb = s.trace.countP Event.isThenCb ∧
    (Holder.do s).trace.countP Event.isCatchCb = s.trace.countP Event.isCatchCb :=
  ⟨do_countP s _ rfl, do_countP s _ rfl⟩

theorem run_callbacks (s : Sys) :
    (Sys.runGoroutine s).trace.countP Event.isThenCb = s.trace.countP Event.isThenCb ∧
    (Sys.runGoroutine s).trace.countP Event.isCatchCb = s.trace.countP Event.isCatchCb :=
  ⟨run_countP s _ (fun _ => rfl) (fun _ => rfl), run_countP s _ (fun _ => rfl) (fun _ => rfl)⟩

theorem wait_callbacks (s : Sys) :
    (Holder.wait s).sys.trace.countP Event.isThenCb = s.trace.countP Event.isThenCb ∧
    (Holder.wait s).sys.trace.countP Event.isCatchCb = s.trace.countP Event.isCatchCb :=
  ⟨wait_countP s _ (fun _ => rfl) (fun _ => rfl) (fun _ => rfl),
   wait_countP s _ (fun _ => rfl) (fun _ => rfl) (fun _ => rfl)⟩

theorem atMostOnce_stable (A : (Request → Request) → Prop) : Stable A AtMostOnce where
  dispatch := fun s h => by
    unfold AtMostOnce
    rw [(do_callbacks s).1, (do_callbacks s).2, (do_state s).1, (do_state s).2]
    exact h
  run := fun s h => by
    unfold AtMostOnce
    rw [(run_callbacks s).1, (run_callbacks s).2, (run_fields s).2.2.2.2.1,
      (run_fields s).2.2.2.2.2.1]
    exact h
  wait := fun s h => by
    unfold AtMostOnce
    rw [(wait_callbacks s).1, (wait_callbacks s).2, (wait_state s).1, (wait_state s).2]
    exact h
  resolving := fun s cb res h hi _ => by
    obtain ⟨h1, h2, h3, h4⟩ := h
    have h0 := h2 hi
    refine ⟨⟨h1, ?_, h3, h4⟩, ⟨?_, ?_, ?_, ?_⟩⟩
    · intro hc; simp [Sys.setState, resultResolving, resultIdle] at hc
    · simp [Sys.log, Sys.setState, List.countP_append, Event.isThenCb, h0]
    · intro hc; simp [Sys.log, Sys.setState, resultResolving, resultIdle] at hc
    · simpa [Sys.log, Sys.setState, List.countP_append, Event.isCatchCb] using h3
    · simpa [Sys.log, Sys.setState, List.countP_append, Event.isCatchCb] using h4
  resolved := fun s h _ => by
    obtain ⟨h1, h2, h3, h4⟩ := h
    refine ⟨h1, ?_, h3, h4⟩
    intro hc; simp [Sys.setState, resultResolved, resultIdle] at hc
  errResolving := fun s cb err h hi => by
    obtain ⟨h1, h2, h3, h4⟩ := h
    have h0 := h4 hi
    refine ⟨⟨h1, h2, h3, ?_⟩, ⟨?_, ?_, ?_, ?_⟩⟩
    · intro hc; simp [Sys.setErrorState, resultResolving, resultIdle] at hc
    · simpa [Sys.log, Sys.setErrorState, List.countP_append, Event.isThenCb] using h1
    · simpa [Sys.log, Sys.setErrorState, List.countP_append, Event.isThenCb] using h2
    · simp [Sys.log, Sys.setErrorState, List.countP_append, Event.isCatchCb, h0]
    · intro hc; simp [Sys.log, Sys.setErrorState, resultResolving, resultIdle] at hc
  errResolved := fun s h => by
    obtain ⟨h1, h2, h3, h4⟩ := h
    refine ⟨h1, h2, h3, ?_⟩
    intro hc; simp [Sys.setErrorState, resultResolved, resultIdle] at hc
  chain := fun s h => by
    unfold AtMostOnce Sys.chain
    rw [(chain_fields s.holder).2.2.2.2.2.1, (chain_fields s.holder).2.2.2.2.2.2]
    exact h
  mutate := fun s f _ h => by
    unfold AtMostOnce Holder.mutate
    simp only
    rw [(chain_fields s.holder).2.2.2.2.2.1, (chain_fields s.holder).2.2.2.2.2.2]
    exact h
  edit := fun s f _ h => h

theorem asyncDo_atMostOnce (env : Env) (c : Client) (req : Request) (now : List Bool) :
    AtMostOnce (Client.AsyncDo env c req now []) := by
  have h0 : AtMostOnce (freshHolder env c req []) := by
    have h1 : (freshHolder env c req []).trace.countP Event.isThenCb = 0 :=
      bootRequest_countP env c req [] _ rfl (fun _ => rfl)
    have h2 : (freshHolder env c req []).trace.countP Event.isCatchCb = 0 :=
      bootRequest_countP env c req [] _ rfl (fun _ => rfl)
    exact ⟨by omega, fun _ => h1, by omega, fun _ => h2⟩
  rw [asyncDo_eq]
  split
  · exact (atMostOnce_stable AnyChange).dispatch _ h0
  · exact h0

/-- C2: for a Holder made by `Client.AsyncDo` and every sequence of calls on it
(`Then` and `Catch` among them, also made from inside a resolver, and
whenever the goroutine gets to run), the
resolvers handed to `Then` have run at most once in total and the resolvers
handed to `Catch` have run at most once in total, whatever the transport
answers. -/
theorem callbacks_at_most_once (env : Env) (c : Client) (req : Request) (now : List Bool)
    (calls : List Call) :
    (runCalls calls (Client.AsyncDo env c req now [])).sys.trace.countP Event.isThenCb ≤ 1 ∧
    (runCalls calls (Client.AsyncDo env c req now [])).sys.trace.countP Event.isCatchCb ≤ 1 := by
  have h := (atMostOnce_stable AnyChange).runCalls calls _ (asyncDo_atMostOnce env c req now)
  exact ⟨h.1, h.2.2.1⟩

/-! ## The cached response -/

theorem cached_stable (A : (Request → Request) → Prop) (v : HttpResponse) :
    Stable A (Cached v) where
  dispatch := fun s h => by rw [do_requested s h.2]; exact h
  run := fun s h => ⟨((run_fields s).2.2.1).trans h.1, ((run_fields s).2.1).trans h.2⟩
  wait := fun s h => by rw [wait_cached v s h.1]; exact h
  resolving := fun _ _ _ h _ _ => ⟨h, h⟩
  resolved := fun _ h _ => h
  errResolving := fun _ _ _ h _ => ⟨h, h⟩
  errResolved := fun _ h => h
  chain := fun s h =>
    ⟨((chain_fields s.holder).2.2.1).trans h.1, ((chain_fields s.holder).2.1).trans h.2⟩
  mutate := fun s _ _ h =>
    ⟨((chain_fields s.holder).2.2.1).trans h.1, ((chain_fields s.holder).2.1).trans h.2⟩
  edit := fun _ _ _ h => h

theorem wait_returned_response (s s1 : Sys) (u : Unit) (h : Holder.wait s = .returned s1 u) :
    s1.holder.response.isSome = true := by
  cases hr : s.holder.response with
  | some v =>
    rw [wait_cached v s hr] at h
    simp only [Outcome.returned.injEq, and_true] at h
    rw [← h, hr]; rfl
  | none =>
    rw [wait_receive s hr] at h
    unfold Holder.receive at h
    split at h
    · simp only [Outcome.returned.injEq, and_true] at h
      rw [← h]; rfl
    · simp at h

theorem getResponse_of_cached (v : HttpResponse) (s : Sys) (h : Cached v s) :
    Holder.GetResponse s = .returned s (some v) := by
  simp [Holder.GetResponse, do_requested s h.2, wait_cached v s h.1, Outcome.andThen, h.1]

theorem cached_of_getResponse (s s1 : Sys) (r : Option HttpResponse)
    (h : Holder.GetResponse s = .returned s1 r) : ∃ v, r = some v ∧ Cached v s1 := by
  unfold Holder.GetResponse at h
  cases hw : Holder.wait (Holder.do s) with
  | parked s2 => rw [hw] at h; simp [Outcome.andThen] at h
  | panicked s2 => rw [hw] at h; simp [Outcome.andThen] at h
  | returned s2 u =>
    rw [hw] at h
    simp only [Outcome.andThen, Outcome.returned.injEq] at h
    obtain ⟨h1, h2⟩ := h
    subst h1
    have hreq : s2.holder.requested = true := by
      have := wait_requested (Holder.do s)
      rw [hw] at this
      exact this.trans (do_sets_requested s)
    have hresp : s2.holder.response.isSome = true := wait_returned_response _ _ _ hw
    cases hv : s2.holder.response with
    | none => rw [hv] at hresp; simp at hresp
    | some v => exact ⟨v, by rw [← h2, hv], hv, hreq⟩

/-- C3: when a call of `GetResponse` has returned the wrapper `r`, then after any
further steps `mid` a call of `GetResponse` returns the same `r` and leaves
the state as it is: the trace gets no new event, so the channel is not read
again and the transport is not called again.  The wrapper is not nil, and on
a Holder made by `Client.AsyncDo` a call of `GetResponse` does return. -/
theorem getResponse_cached (s s1 : Sys) (r : Option HttpResponse) (mid : List Call)
    (hfirst : Holder.GetResponse s = .returned s1 r) :
    r ≠ none ∧
    Holder.GetResponse (runCalls mid s1).sys = .returned (runCalls mid s1).sys r ∧
    (Holder.GetResponse (runCalls mid s1).sys).sys.trace = (runCalls mid s1).sys.trace ∧
    (∀ (env : Env) (c : Client) (req : Request) (now : List Bool) (pre : List Call),
      (Holder.GetResponse (runCalls pre (Client.AsyncDo env c req now [])).sys).isReturned
        = true) := by
  obtain ⟨v, hv, hc⟩ := cached_of_getResponse s s1 r hfirst
  have h2 := getResponse_of_cached v _ ((cached_stable AnyChange v).runCalls mid s1 hc)
  subst hv
  refine ⟨by simp, h2, by rw [h2]; rfl, ?_⟩
  intro env c req now pre
  obtain ⟨s2, v2, h3⟩ :=
    getResponse_returns _ ((Wf.stable AnyChange).runCalls pre _ (asyncDo_wf env c req now))
  rw [h3]
  rfl

theorem getResponse_cached_witness :
    (some ({ Response := some { StatusCode := 200, Body := [] }, Err := none } : HttpResponse))
      ≠ none ∧
    Holder.GetResponse (runCalls [Call.Then 1 [], Call.yield, Call.GetResponse, Call.Catch 2 []]
      (Holder.GetResponse (Client.AsyncDo sampleEnv NewClient sampleRequest [] [])).sys).sys =
      .returned (runCalls [Call.Then 1 [], Call.yield, Call.GetResponse, Call.Catch 2 []]
        (Holder.GetResponse (Client.AsyncDo sampleEnv NewClient sampleRequest [] [])).sys).sys
        (some { Response := some { StatusCode := 200, Body := [] }, Err := none }) ∧
    (Holder.GetResponse (runCalls [Call.Then 1 [], Call.yield, Call.GetResponse, Call.Catch 2 []]
      (Holder.GetResponse (Client.AsyncDo sampleEnv NewClient sampleRequest [] [])).sys).sys).sys.trace
      = (runCalls [Call.Then 1 [], Call.yield, Call.GetResponse, Call.Catch 2 []]
        (Holder.GetResponse (Client.AsyncDo sampleEnv NewClient sampleRequest [] [])).sys).sys.trace ∧
    (∀ (env : Env) (c : Client) (req : Request) (now : List Bool) (pre : List Call),
      (Holder.GetResponse (runCalls pre (Client.AsyncDo env c req now [])).sys).isReturned
        = true) :=
  getResponse_cached (Client.AsyncDo sampleEnv NewClient sampleRequest [] [])
    (Holder.GetResponse (Client.AsyncDo sampleEnv NewClient sampleRequest [] [])).sys
    (some { Response := some { StatusCode := 200, Body := [] }, Err := none })
    [Call.Then 1 [], Call.yield, Call.GetResponse, Call.Catch 2 []] rfl

theorem getResponse_sys (s : Sys) :
    (Holder.GetResponse s).sys = (Holder.wait (Holder.do s)).sys := by
  unfold Holder.GetResponse
  cases Holder.wait (Holder.do s) <;> rfl

theorem asyncDo_intercepts (env : Env) (c : Client) (req : Request) (now : List Bool)
    (tr : List Event) :
    (Client.AsyncDo env c req now tr).trace.countP Event.isRequestIntercept =
      tr.countP Event.isRequestIntercept + (if c.requestInterceptor.isSome then 1 else 0) := by
  rw [asyncDo_eq]
  split
  · rw [do_countP _ _ rfl]
    exact bootRequest_intercepts env c req tr
  · exact bootRequest_intercepts env c req tr

theorem do_intercepts (env : Env) (c : Client) (req : Request) :
    (Client.Do env c req []).sys.trace.countP Event.isRequestIntercept =
      (if c.requestInterceptor.isSome then 2 else 0) := by
  unfold Client.Do
  dsimp only
  rw [getResponse_sys, wait_countP _ _ (fun _ => rfl) (fun _ => rfl) (fun _ => rfl), do_countP _ _ rfl,
    asyncDo_intercepts, bootRequest_intercepts, bootRequest_interceptor]
  split <;> simp

/-- C9, the code at the failing input: with a request interceptor set,
`Client.Do` and `Client.Get` run the interceptor twice for the request,
`Client.AsyncDo` and `Client.Request` once. -/
theorem do_runs_interceptor_twice (env : Env) (h : Option GoHttpClient)
    (ci : Option (GoHttpClient → GoHttpClient)) (f : Request → Request) (req : Request)
    (now : List Bool) (url : GoString) (query : List StrMap) :
    (Client.Do env { http := h, configInterceptor := ci, requestInterceptor := some f } req
      []).sys.trace.countP Event.isRequestIntercept = 2 ∧
    (Client.AsyncDo env { http := h, configInterceptor := ci, requestInterceptor := some f } req
      now []).trace.countP Event.isRequestIntercept = 1 ∧
    (∀ o, Client.Get env { http := h, configInterceptor := ci, requestInterceptor := some f }
        url query [] = .ok o → o.sys.trace.countP Event.isRequestIntercept = 2) ∧
    (∀ method s, Client.Request env
        { http := h, configInterceptor := ci, requestInterceptor := some f } method url now []
        = .ok s → s.trace.countP Event.isRequestIntercept = 1) := by
  refine ⟨?_, ?_, ?_, ?_⟩
  · rw [do_intercepts]; rfl
  · rw [asyncDo_intercepts]; rfl
  · intro o ho
    unfold Client.Get at ho
    split at ho
    · simp at ho
    · simp only [Except.ok.injEq] at ho
      rw [← ho, do_intercepts]; rfl
  · intro method s hs
    unfold Client.Request at hs
    split at hs
    · simp at hs
    · simp only [Except.ok.injEq] at hs
      rw [← hs, asyncDo_intercepts]; rfl

theorem settled_stable (A : (Request → Request) → Prop) :
    Stable A (fun s => s.holder.requested = true ∧ s.goroutine = false) where
  dispatch := fun s h => by rw [do_requested s h.1]; exact h
  run := fun s h => ⟨((run_fields s).2.1).trans h.1, (run_fields s).2.2.2.2.2.2⟩
  wait := fun s h =>
    wait_keeps (P := fun s => s.holder.requested = true ∧ s.goroutine = false)
      (fun s h => ⟨((run_fields s).2.1).trans h.1, (run_fields s).2.2.2.2.2.2⟩)
      (fun s h => ⟨((receive_fields s).2.1).trans h.1, ((receive_fields s).2.2.2.2.2).trans h.2⟩)
      s h
  resolving := fun _ _ _ h _ _ => ⟨h, h⟩
  resolved := fun _ h _ => h
  errResolving := fun _ _ _ h _ => ⟨h, h⟩
  errResolved := fun _ h => h
  chain := fun s h => ⟨((chain_fields s.holder).2.1).trans h.1, h.2⟩
  mutate := fun s _ _ h => ⟨((chain_fields s.holder).2.1).trans h.1, h.2⟩
  edit := fun _ _ _ h => h

/-- On a Holder that has no response yet, `Then` with an idle `state` goes
through the dispatch and lets the goroutine run before anything else. -/
theorem then_runs_goroutine (cb : Nat) (body : Sys → Outcome Unit) (s : Sys)
    (hs : s.holder.state = resultIdle) (hr : s.holder.response = none) :
    Holder.Then cb body s = Holder.Then cb body (Sys.runGoroutine (Holder.do s)) := by
  have hr1 : (Holder.do s).holder.response = none := by
    unfold Holder.do
    split
    · exact hr
    · exact hr
  have hr2 : (Sys.runGoroutine (Holder.do s)).holder.response = none :=
    ((run_fields _).2.2.1).trans hr1
  have hd : Holder.do (Sys.runGoroutine (Holder.do s)) = Sys.runGoroutine (Holder.do s) :=
    do_requested _ (((run_fields _).2.1).trans (do_sets_requested s))
  have hst : (Sys.runGoroutine (Holder.do s)).holder.state = resultIdle :=
    ((run_fields _).2.2.2.2.1).trans (((do_state s).1).trans hs)
  rw [Holder.Then, Holder.Then, hd, wait_receive _ hr1, wait_receive _ hr2,
    run_idle (Sys.runGoroutine (Holder.do s)) (run_fields _).2.2.2.2.2.2]
  simp [hs, hst]

/-- C4, the code at the failing input: on a Holder made by `Client.AsyncDo`
without immediate dispatch, `Catch` blocks on the channel receive with the
Holder as it was (not dispatched, no transport call), while `Then` on the
same Holder returns after the dispatch and one transport call. -/
theorem catch_parks_without_dispatch (env : Env) (c : Client) (req : Request) (cb : Nat)
    (body : List Call) :
    runCall (Call.Catch cb body) (Client.AsyncDo env c req [] []) =
      .parked (Client.AsyncDo env c req [] []) ∧
    (Client.AsyncDo env c req [] []).holder.requested = false ∧
    (Client.AsyncDo env c req [] []).trace.countP Event.isTransport = 0 ∧
    (runCall (Call.Then cb body) (Client.AsyncDo env c req [] [])).isReturned = true ∧
    (runCall (Call.Then cb body) (Client.AsyncDo env c req [] [])).sys.holder.requested = true ∧
    (runCall (Call.Then cb body) (Client.AsyncDo env c req [] [])).sys.trace.countP
      Event.isTransport = 1 := by
  have h0 : Client.AsyncDo env c req [] [] = freshHolder env c req [] := rfl
  refine ⟨?_, ?_, ?_, ?_⟩
  · rw [h0, runCall]
    rfl
  · rw [h0]; rfl
  · rw [h0]
    exact ((freshHolder_wf env c req [] quiet_nil).before rfl).2.2.1
  · obtain ⟨hl, hr⟩ := live_after_first _ (asyncDo_wf env c req [])
      (asyncDo_idleUntilDispatch env c req []) (Call.Then cb body) [] rfl
    have h1 : runCalls [Call.Then cb body] (Client.AsyncDo env c req [] []) =
        runCall (Call.Then cb body) (Client.AsyncDo env c req [] []) := by
      rw [runCalls_cons]
      cases runCall (Call.Then cb body) (Client.AsyncDo env c req [] []) <;> rfl
    rw [h1] at hl hr
    have hg : (runCall (Call.Then cb body) (Client.AsyncDo env c req [] [])).sys.goroutine
        = false := by
      rw [h0, runCall, then_runs_goroutine cb _ _ rfl rfl]
      have hset : (Sys.runGoroutine (Holder.do (freshHolder env c req []))).holder.requested
          = true ∧ (Sys.runGoroutine (Holder.do (freshHolder env c req []))).goroutine = false :=
        ⟨((run_fields _).2.1).trans (do_sets_requested _), (run_fields _).2.2.2.2.2.2⟩
      exact ((settled_stable AnyChange).then_ cb _
        (fun s1 h1 => (settled_stable AnyChange).runCalls body s1 h1)
        (fun s1 h1 => ((settled_stable AnyChange).runCalls_both body s1).1 h1) _ hset).2
    exact ⟨hr, hl.2, ((Live.counts _ hl).2.2.2.2 hg).1⟩

/-! ## The identifying header -/

theorem mapIndex_mapAssign_self (m : StrMap) (k : GoString) (vs : List GoString) :
    mapIndex (mapAssign m k vs) k = vs := by
  simp [mapIndex, mapAssign]

theorem mapIndex_mapAssign_ne (m : StrMap) (k k1 : GoString) (vs : List GoString) (h : k1 ≠ k) :
    mapIndex (mapAssign m k vs) k1 = mapIndex m k1 := by
  simp [mapIndex, mapAssign, AList.lookup_insert_ne h]

theorem sentRequests_append (l1 l2 : List Event) :
    sentRequests (l1 ++ l2) = sentRequests l1 ++ sentRequests l2 := by
  induction l1 with
  | nil => rfl
  | cons e l ih => cases e <;> simp [sentRequests, ih]

theorem sentRequests_length (l : List Event) :
    (sentRequests l).length = l.countP Event.isTransport := by
  induction l with
  | nil => rfl
  | cons e l ih => cases e <;> simp [sentRequests, List.countP_cons, Event.isTransport, ih]

theorem sentRequests_eq_nil (l : List Event) (h : l.countP Event.isTransport = 0) :
    sentRequests l = [] :=
  List.length_eq_zero.1 ((sentRequests_length l).trans h)

theorem header_set_other (h : StrMap) (k v k1 : GoString) (hk : CanonicalMIMEHeaderKey k ≠ k1) :
    mapIndex (Header.Set h k v) k1 = mapIndex h k1 :=
  mapIndex_mapAssign_ne _ _ _ _ (Ne.symm hk)

theorem header_add_other (h : StrMap) (k v k1 : GoString) (hk : CanonicalMIMEHeaderKey k ≠ k1) :
    mapIndex (Header.Add h k v) k1 = mapIndex h k1 :=
  mapIndex_mapAssign_ne _ _ _ _ (Ne.symm hk)

/-- `SetHeader` on another header leaves `User-Agent` alone. -/
theorem keeps_setHeader (k v : GoString) (hk : CanonicalMIMEHeaderKey k ≠ ascii "User-Agent") :
    KeepsUserAgent (fun r => SimpleDelayRequest.SetHeader r k v) :=
  fun r => header_set_other r.Header k v _ hk

/-- `AddHeader` on another header leaves `User-Agent` alone. -/
theorem keeps_addHeader (k v : GoString) (hk : CanonicalMIMEHeaderKey k ≠ ascii "User-Agent") :
    KeepsUserAgent (fun r => SimpleDelayRequest.AddHeader r k v) :=
  fun r => header_add_other r.Header k v _ hk

theorem keeps_setQuery (k v : GoString) :
    KeepsUserAgent (fun r => SimpleDelayRequest.SetQuery r k v) :=
  fun _ => rfl

theorem keeps_json (m : Marshaler) : KeepsUserAgent (fun r => SimpleDelayRequest.Json r m) :=
  fun r => header_set_other r.Header _ _ _ (by decide)

theorem AllStamped.of_parts {env : Env} {s t : Sys} (h : AllStamped env s)
    (h1 : t.holder.req = s.holder.req) (h2 : sentRequests t.trace = sentRequests s.trace) :
    AllStamped env t := by
  unfold AllStamped
  rw [h1, h2]
  exact h

theorem allStamped_run (env : Env) (s : Sys) (h : AllStamped env s) :
    AllStamped env (Sys.runGoroutine s) := by
  unfold Sys.runGoroutine
  split
  · split
    · exact h.of_parts (chain_fields _).2.2.2.2.1 rfl
    · refine ⟨?_, ?_⟩
      · show Stamped env (Holder.Chain s.holder).req
        rw [(chain_fields _).2.2.2.2.1]; exact h.1
      · intro r hr
        simp only [sentRequests_append, sentRequests, List.append_nil, List.mem_append,
          List.mem_singleton] at hr
        rcases hr with hr | hr
        · exact h.2 r hr
        · rw [hr, (chain_fields _).2.2.2.2.1]; exact h.1
  · exact h

theorem allStamped_receive (env : Env) (s : Sys) (h : AllStamped env s) :
    AllStamped env (Holder.receive s).sys := by
  unfold Holder.receive
  split
  · exact h.of_parts rfl (by simp [Outcome.sys, sentRequests_append, sentRequests])
  · exact h

theorem allStamped_stable (env : Env) : Stable KeepsUserAgent (AllStamped env) where
  dispatch := fun s h => by
    unfold Holder.do
    split
    · exact h
    · exact h.of_parts rfl (by simp [sentRequests_append, sentRequests])
  run := allStamped_run env
  wait := fun s h => wait_keeps (allStamped_run env) (allStamped_receive env) s h
  resolving := fun s cb res h _ _ =>
    ⟨h.of_parts rfl rfl,
     h.of_parts rfl (by simp [Sys.log, Sys.setState, sentRequests_append, sentRequests])⟩
  resolved := fun s h _ => h.of_parts rfl rfl
  errResolving := fun s cb err h _ =>
    ⟨h.of_parts rfl rfl,
     h.of_parts rfl (by simp [Sys.log, Sys.setErrorState, sentRequests_append, sentRequests])⟩
  errResolved := fun s h => h.of_parts rfl rfl
  chain := fun s h => h.of_parts (chain_fields _).2.2.2.2.1 rfl
  mutate := fun s f hf h => ⟨(hf s.holder.req).trans h.1, h.2⟩
  edit := fun s f hf h => ⟨(hf s.holder.req).trans h.1, h.2⟩

theorem asyncDo_allStamped (env : Env) (c : Client) (req : Request) (now : List Bool)
    (tr : List Event) (htr : Quiet tr) : AllStamped env (Client.AsyncDo env c req now tr) := by
  have h0 : AllStamped env (freshHolder env c req tr) := by
    refine ⟨bootRequest_userAgent env c req tr, ?_⟩
    intro r hr
    have : sentRequests (freshHolder env c req tr).trace = [] :=
      sentRequests_eq_nil _ (bootRequest_quiet env c req tr htr).2.1
    rw [this] at hr
    simp at hr
  rw [asyncDo_eq]
  split
  · exact (allStamped_stable env).dispatch _ h0
  · exact h0

/-- After a `GetResponse` that returned on a Holder of `Client.AsyncDo`, the
transport has been handed exactly one request. -/
theorem sent_one_after_getResponse (s s1 : Sys) (r : Option HttpResponse) (hw : Wf s)
    (h : Holder.GetResponse s = .returned s1 r) : (sentRequests s1.trace).length = 1 := by
  obtain ⟨v, _, hc⟩ := cached_of_getResponse s s1 r h
  have hw1 : Wf s1 := by
    have := (Wf.stable AnyChange).getResponse s hw
    rw [h] at this
    exact this
  rw [sentRequests_length]
  obtain ⟨_, a2⟩ := hw1.after hc.2
  rcases a2 with ⟨_, _, _, _, c4, _⟩ | ⟨_, c1, _⟩
  · rw [hc.1] at c4; simp at c4
  · exact c1

theorem stamped_one_after_getResponse (env : Env) (s s1 : Sys) (r : Option HttpResponse)
    (hw : Wf s) (hs : AllStamped env s) (h : Holder.GetResponse s = .returned s1 r) :
    ∃ q, sentRequests s1.trace = [q] ∧ Stamped env q := by
  have hlen := sent_one_after_getResponse s s1 r hw h
  have hs1 : AllStamped env s1 := by
    have := (allStamped_stable env).getResponse s hs
    rw [h] at this
    exact this
  obtain ⟨q, hq⟩ := List.length_eq_one.1 hlen
  exact ⟨q, hq, hs1.2 q (by rw [hq]; simp)⟩

theorem do_stamped (env : Env) (c : Client) (req : Request) :
    ∃ q, sentRequests (Client.Do env c req []).sys.trace = [q] ∧ Stamped env q := by
  have hq := bootRequest_quiet env c req [] quiet_nil
  have hw := asyncDo_wf_of env (Client.bootRequest env c req []).1
    (Client.bootRequest env c req []).2.1 [true] _ hq
  have hs := asyncDo_allStamped env (Client.bootRequest env c req []).1
    (Client.bootRequest env c req []).2.1 [true] _ hq
  obtain ⟨s1, v, h1⟩ := getResponse_returns _ hw
  have h2 : Client.Do env c req [] = .returned s1 (some v) := h1
  rw [h2]
  exact stamped_one_after_getResponse env _ s1 _ hw hs h1

theorem Sent.of_trace {l : List Request} {s t : Sys} (h : Sent l s)
    (h1 : sentRequests t.trace = sentRequests s.trace) (h2 : t.goroutine = s.goroutine)
    (h3 : t.holder.requested = s.holder.requested) : Sent l t :=
  ⟨h1.trans h.1, h2.trans h.2.1, h3.trans h.2.2⟩

theorem sent_receive (l : List Request) (s : Sys) (h : Sent l s) :
    Sent l (Holder.receive s).sys := by
  unfold Holder.receive
  split
  · exact h.of_trace (by simp [Outcome.sys, sentRequests_append, sentRequests]) rfl rfl
  · exact h

/-- Once the goroutine has run, no step changes what the transport has been
handed, whatever the step does to the request. -/
theorem sent_stable (l : List Request) : Stable AnyChange (Sent l) where
  dispatch := fun s h => by rw [do_requested s h.2.2]; exact h
  run := fun s h => by rw [run_idle s h.2.1]; exact h
  wait := fun s h =>
    wait_keeps (fun t ht => by rw [run_idle t ht.2.1]; exact ht) (sent_receive l) s h
  resolving := fun s cb res h _ _ =>
    ⟨h.of_trace rfl rfl rfl,
     h.of_trace (by simp [Sys.log, Sys.setState, sentRequests_append, sentRequests]) rfl rfl⟩
  resolved := fun s h _ => h.of_trace rfl rfl rfl
  errResolving := fun s cb err h _ =>
    ⟨h.of_trace rfl rfl rfl,
     h.of_trace (by simp [Sys.log, Sys.setErrorState, sentRequests_append, sentRequests])
       rfl rfl⟩
  errResolved := fun s h => h.of_trace rfl rfl rfl
  chain := fun s h => h.of_trace rfl rfl (chain_fields _).2.1
  mutate := fun s f _ h => h.of_trace rfl rfl (chain_fields _).2.1
  edit := fun s f _ h => h.of_trace rfl rfl rfl

theorem sent_unchanged (cs post : List Call) (s : Sys)
    (hg : (runCalls cs s).sys.goroutine = false)
    (hr : (runCalls cs s).sys.holder.requested = true) :
    sentRequests (runCalls (cs ++ post) s).sys.trace = sentRequests (runCalls cs s).sys.trace := by
  rw [runCalls_append]
  cases hp : runCalls cs s with
  | parked t => rfl
  | panicked t => rfl
  | returned t u =>
    rw [hp] at hg hr
    exact ((sent_stable _).runCalls post t ⟨rfl, hg, hr⟩).1

/-- C10, amended: take a Holder made by `Client.AsyncDo` from any client (with
any request interceptor) and any request, with or without immediate dispatch,
and any steps on it (calls, resolvers, direct changes of the request, turns of
the scheduler) none of which changes the values of the header `User-Agent`.
Then every request the Holder has handed to the transport carries
`UserAgent()` as its only `User-Agent` value, and there is at most one such
request; when the steps have returned and `GetResponse` follows, there is
exactly one.  The same holds for the request sent by `Client.Do` and by
`Client.Get`.  Once the goroutine of the dispatch has run, steps that follow
may change the request in any way, the header `User-Agent` too: what the
transport has been handed stays as it is. -/
theorem userAgent_stamped_at_creation (env : Env) (c : Client) (req : Request)
    (now : List Bool) (calls : List Call) (hk : allCalls KeepsUserAgent calls) :
    (∀ r ∈ sentRequests (runCalls calls (Client.AsyncDo env c req now [])).sys.trace,
      mapIndex r.Header (ascii "User-Agent") = [UserAgent env]) ∧
    (sentRequests (runCalls calls (Client.AsyncDo env c req now [])).sys.trace).length ≤ 1 ∧
    ((runCalls calls (Client.AsyncDo env c req now [])).isReturned = true →
      ∃ r, sentRequests
          (runCalls (calls ++ [Call.GetResponse]) (Client.AsyncDo env c req now [])).sys.trace
          = [r] ∧
        mapIndex r.Header (ascii "User-Agent") = [UserAgent env]) ∧
    (∃ r, sentRequests (Client.Do env c req []).sys.trace = [r] ∧
      mapIndex r.Header (ascii "User-Agent") = [UserAgent env]) ∧
    (∀ url query o, Client.Get env c url query [] = .ok o →
      ∃ r, sentRequests o.sys.trace = [r] ∧
        mapIndex r.Header (ascii "User-Agent") = [UserAgent env]) ∧
    (∀ post : List Call,
      (runCalls calls (Client.AsyncDo env c req now [])).sys.holder.requested = true →
      (runCalls calls (Client.AsyncDo env c req now [])).sys.goroutine = false →
      ∀ r ∈ sentRequests
          (runCalls (calls ++ post) (Client.AsyncDo env c req now [])).sys.trace,
        mapIndex r.Header (ascii "User-Agent") = [UserAgent env]) := by
  have hs := ((allStamped_stable env).runCalls_both calls _).2 hk
    (asyncDo_allStamped env c req now [] quiet_nil)
  have hw := (Wf.stable AnyChange).runCalls calls _ (asyncDo_wf env c req now)
  refine ⟨hs.2, ?_, ?_, do_stamped env c req, ?_, ?_⟩
  rotate_left 3
  · intro post hr hg r hmem
    rw [sent_unchanged calls post _ hg hr] at hmem
    exact hs.2 r hmem
  · rw [sentRequests_length]
    cases hr : (runCalls calls (Client.AsyncDo env c req now [])).sys.holder.requested with
    | false => rw [(hw.before hr).2.2.1]; omega
    | true => exact (Live.counts _ ⟨hw, hr⟩).2.1
  · intro hret
    cases hp : runCalls calls (Client.AsyncDo env c req now []) with
    | parked t => rw [hp] at hret; simp [Outcome.isReturned] at hret
    | panicked t => rw [hp] at hret; simp [Outcome.isReturned] at hret
    | returned t u =>
      rw [hp] at hs hw
      obtain ⟨s1, v, h1⟩ := getResponse_returns t hw
      have hrun : (runCalls (calls ++ [Call.GetResponse])
          (Client.AsyncDo env c req now [])).sys = s1 := by
        rw [runCalls_append, hp]
        simp [Outcome.andThen, runCalls, runCall, h1, Outcome.sys]
      rw [hrun]
      exact stamped_one_after_getResponse env t s1 _ hw hs h1
  · intro url query o ho
    unfold Client.Get at ho
    split at ho
    · simp at ho
    · simp only [Except.ok.injEq] at ho
      rw [← ho]
      exact do_stamped env c _

/-! ## Maps -/

theorem canonical_userAgent : CanonicalMIMEHeaderKey (ascii "User-Agent") = ascii "User-Agent" := by
  decide

theorem canonical_contentType :
    CanonicalMIMEHeaderKey (ascii "Content-Type") = ascii "Content-Type" := by
  decide

/-- C5: for a response wrapper whose raw response is not nil when its error is
nil, `IsSuccessful` returns a value, and this value is true exactly when the
error is nil and the status code is 200; with no error and another status
code it is false; with an error it is false whatever the raw response, nil
included. -/
theorem isSuccessful_iff_nil_error_and_200 (r : HttpResponse)
    (h : r.Err = none → r.Response ≠ none) :
    (∃ b, HttpResponse.IsSuccessful r = some b ∧
      (b = true ↔ r.Err = none ∧ ∃ resp, r.Response = some resp ∧ resp.StatusCode = 200)) ∧
    (∀ resp : RawResponse, resp.StatusCode ≠ 200 →
      HttpResponse.IsSuccessful { Response := some resp, Err := none } = some false) ∧
    (∀ (raw : Option RawResponse) (e : GoError),
      HttpResponse.IsSuccessful { Response := raw, Err := some e } = some false) := by
  refine ⟨?_, ?_, ?_⟩
  · obtain ⟨raw, err⟩ := r
    cases err with
    | some e => exact ⟨false, rfl, by simp⟩
    | none =>
      cases raw with
      | none => exact absurd rfl (h rfl)
      | some resp =>
        exact ⟨decide (resp.StatusCode = 200), rfl, by simp⟩
  · intro resp hne
    simp [HttpResponse.IsSuccessful, hne]
  · intro raw e
    rfl

theorem isSuccessful_iff_nil_error_and_200_witness :
    (∃ b, HttpResponse.IsSuccessful { Response := some { StatusCode := 201, Body := [] }, Err := none } = some b ∧
      (b = true ↔ (none : Option GoError) = none ∧
        ∃ resp, some ({ StatusCode := 201, Body := [] } : RawResponse) = some resp ∧ resp.StatusCode = 200)) ∧
    (∀ resp : RawResponse, resp.StatusCode ≠ 200 →
      HttpResponse.IsSuccessful { Response := some resp, Err := none } = some false) ∧
    (∀ (raw : Option RawResponse) (e : GoError),
      HttpResponse.IsSuccessful { Response := raw, Err := some e } = some false) :=
  isSuccessful_iff_nil_error_and_200
    { Response := some { StatusCode := 201, Body := [] }, Err := none } (by simp)

/-- C8: when the JSON encoding of the value is `b`, `Json` (and `SimpleJson`)
leaves the request with the body `b`, with `application/json` as the only
value of the header `Content-Type`, and with the content length equal to the
length of `b`, whatever the request was before. -/
theorem json_installs_body (req : Request) (b : List Byte) (marshaler : Marshaler)
    (h : marshaler.MarshalJSON = (b, none)) :
    (SimpleDelayRequest.Json req marshaler).Body = some b ∧
    mapIndex (SimpleDelayRequest.Json req marshaler).Header (ascii "Content-Type")
      = [ascii "application/json"] ∧
    (SimpleDelayRequest.Json req marshaler).ContentLength = (b.length : Int) ∧
    (∀ (V : Type) (jsonMarshal : V → List Byte × Option GoError) (j : V),
      jsonMarshal j = (b, none) →
      (SimpleDelayRequest.SimpleJson jsonMarshal req j).Body = some b ∧
      mapIndex (SimpleDelayRequest.SimpleJson jsonMarshal req j).Header (ascii "Content-Type")
        = [ascii "application/json"] ∧
      (SimpleDelayRequest.SimpleJson jsonMarshal req j).ContentLength = (b.length : Int)) := by
  have key : ∀ m : Marshaler, m.MarshalJSON = (b, none) →
      (SimpleDelayRequest.Json req m).Body = some b ∧
      mapIndex (SimpleDelayRequest.Json req m).Header (ascii "Content-Type")
        = [ascii "application/json"] ∧
      (SimpleDelayRequest.Json req m).ContentLength = (b.length : Int) := by
    intro m hm
    simp only [SimpleDelayRequest.Json, hm, Header.Set, canonical_contentType,
      mapIndex_mapAssign_self, and_self]
  refine ⟨(key marshaler h).1, (key marshaler h).2.1, (key marshaler h).2.2, ?_⟩
  intro V jsonMarshal j hj
  exact key (SimpleJsonMarshaler jsonMarshal j) hj

theorem json_installs_body_witness :
    sampleMarshaler.MarshalJSON = (sampleJson, none) ∧
    (SimpleDelayRequest.Json requestWithBody sampleMarshaler).Body = some sampleJson ∧
    mapIndex (SimpleDelayRequest.Json requestWithBody sampleMarshaler).Header (ascii "Content-Type")
      = [ascii "application/json"] ∧
    (SimpleDelayRequest.Json requestWithBody sampleMarshaler).ContentLength
      = (sampleJson.length : Int) ∧
    (∀ (V : Type) (jsonMarshal : V → List Byte × Option GoError) (j : V),
      jsonMarshal j = (sampleJson, none) →
      (SimpleDelayRequest.SimpleJson jsonMarshal requestWithBody j).Body = some sampleJson ∧
      mapIndex (SimpleDelayRequest.SimpleJson jsonMarshal requestWithBody j).Header
        (ascii "Content-Type") = [ascii "application/json"] ∧
      (SimpleDelayRequest.SimpleJson jsonMarshal requestWithBody j).ContentLength
        = (sampleJson.length : Int)) :=
  ⟨rfl, json_installs_body requestWithBody sampleJson sampleMarshaler rfl⟩

/-! ## Escaping -/

set_option maxRecDepth 100000 in
theorem hex_roundtrip : ∀ c : Byte,
    ishex (upperhex (c.val / 16)) = true ∧ ishex (upperhex (c.val % 16)) = true ∧
    (Fin.ofNat (unhex (upperhex (c.val / 16)) * 16 + unhex (upperhex (c.val % 16))) : Byte) = c := by
  decide

set_option maxRecDepth 100000 in
theorem upperhex_plain : ∀ c : Byte,
    upperhex (c.val / 16) ≠ 38 ∧ upperhex (c.val / 16) ≠ 61 ∧ upperhex (c.val / 16) ≠ 59 ∧
    upperhex (c.val % 16) ≠ 38 ∧ upperhex (c.val % 16) ≠ 61 ∧ upperhex (c.val % 16) ≠ 59 := by
  decide

set_option maxRecDepth 100000 in
theorem unescaped_plain : ∀ c : Byte, shouldEscape c = false →
    c ≠ 37 ∧ c ≠ 43 ∧ c ≠ 38 ∧ c ≠ 61 ∧ c ≠ 59 := by
  decide

theorem queryEscape_plain (s : GoString) : Plain (QueryEscape s) := by
  induction s with
  | nil => intro c hc; simp [QueryEscape] at hc
  | cons a s ih =>
    intro c hc
    rw [QueryEscape] at hc
    split at hc
    · rcases List.mem_cons.1 hc with h | h
      · subst h; decide
      · exact ih c h
    · split at hc
      · rename_i hesc
        have hu := upperhex_plain a
        simp only [List.mem_cons] at hc
        rcases hc with h | h | h | h
        · subst h; decide
        · subst h; exact ⟨hu.1, hu.2.1, hu.2.2.1⟩
        · subst h; exact ⟨hu.2.2.2.1, hu.2.2.2.2.1, hu.2.2.2.2.2⟩
        · exact ih c h
      · rename_i hesc
        have hp := unescaped_plain a (by simpa using hesc)
        rcases List.mem_cons.1 hc with h | h
        · subst h; exact ⟨hp.2.2.1, hp.2.2.2.1, hp.2.2.2.2⟩
        · exact ih c h

theorem queryUnescape_percent (a b : Byte) (rest : GoString) :
    QueryUnescape (37 :: a :: b :: rest) =
      if ishex a && ishex b then
        (QueryUnescape rest).map (fun t => Fin.ofNat (unhex a * 16 + unhex b) :: t)
      else none := by
  conv => lhs; unfold QueryUnescape
  simp

theorem queryUnescape_plus (cs : GoString) :
    QueryUnescape (43 :: cs) = (QueryUnescape cs).map (fun t => 32 :: t) := by
  conv => lhs; unfold QueryUnescape
  simp

theorem queryUnescape_other (c : Byte) (cs : GoString) (h1 : c ≠ 37) (h2 : c ≠ 43) :
    QueryUnescape (c :: cs) = (QueryUnescape cs).map (fun t => c :: t) := by
  conv => lhs; unfold QueryUnescape
  simp [h1, h2]

theorem queryUnescape_queryEscape (s : GoString) : QueryUnescape (QueryEscape s) = some s := by
  induction s with
  | nil => rfl
  | cons a s ih =>
    rw [QueryEscape]
    split
    · rename_i h32
      subst h32
      rw [queryUnescape_plus, ih]
      rfl
    · split
      · have hx := hex_roundtrip a
        rw [queryUnescape_percent]
        simp only [hx.1, hx.2.1, Bool.and_self, if_true, ih, Option.map_some', hx.2.2]
      · rename_i h32 hesc
        have hp := unescaped_plain a (by simpa using hesc)
        rw [queryUnescape_other _ _ hp.1 hp.2.1, ih]
        rfl

/-! ## Cutting -/

theorem cut_append (sep : Byte) (l r : GoString) (h : sep ∉ l) :
    cut sep (l ++ sep :: r) = (l, r) := by
  induction l with
  | nil => simp [cut]
  | cons a l ih =>
    have ha : a ≠ sep := fun e => h (by simp [e])
    have hl : sep ∉ l := fun e => h (List.mem_cons_of_mem _ e)
    simp [cut, ha, ih hl]

theorem splitOn_plain (sep : Byte) (l : GoString) (h : sep ∉ l) : splitOn sep l = [l] := by
  induction l with
  | nil => rfl
  | cons a l ih =>
    have ha : a ≠ sep := fun e => h (by simp [e])
    have hl : sep ∉ l := fun e => h (List.mem_cons_of_mem _ e)
    simp [splitOn, ha, ih hl]

theorem splitOn_append (sep : Byte) (l r : GoString) (h : sep ∉ l) :
    splitOn sep (l ++ sep :: r) = l :: splitOn sep r := by
  induction l with
  | nil => simp [splitOn]
  | cons a l ih =>
    have ha : a ≠ sep := fun e => h (by simp [e])
    have hl : sep ∉ l := fun e => h (List.mem_cons_of_mem _ e)
    simp [splitOn, ha, ih hl]

theorem encodeKey_eq (k : GoString) (vs : List GoString) (buf : GoString) :
    encodeKey k vs buf = (vs.map (fun x => (k, x))).foldl writePair buf := by
  unfold encodeKey
  induction vs generalizing buf with
  | nil => rfl
  | cons a vs ih => simp only [List.foldl_cons, List.map_cons]; rw [ih]; rfl

theorem encode_foldl (v : StrMap) (keys : List GoString) (buf : GoString) :
    keys.foldl (fun buf k => encodeKey k (mapIndex v k) buf) buf =
      (pairsOf v keys).foldl writePair buf := by
  induction keys generalizing buf with
  | nil => rfl
  | cons k keys ih =>
    simp only [List.foldl_cons, pairsOf, List.flatMap_cons, List.foldl_append]
    rw [ih, encodeKey_eq]
    rfl

theorem pairText_amp (p : GoString × GoString) : (38 : Byte) ∉ pairText p := by
  intro h
  simp only [pairText, List.mem_append, List.mem_singleton] at h
  rcases h with (h | h) | h
  · exact (queryEscape_plain _ _ h).1 rfl
  · exact absurd h (by decide)
  · exact (queryEscape_plain _ _ h).1 rfl

theorem writePair_nonempty (buf : GoString) (hb : buf ≠ []) (ps : List (GoString × GoString)) :
    ps.foldl writePair buf = buf ++ ps.flatMap (fun p => 38 :: pairText p) := by
  induction ps generalizing buf with
  | nil => simp
  | cons p ps ih =>
    have hlen : buf.length > 0 := List.length_pos.2 hb
    have h1 : writePair buf p = buf ++ 38 :: pairText p := by
      simp [writePair, hlen, pairText]
    simp only [List.foldl_cons, List.flatMap_cons]
    rw [h1, ih _ (by simp)]
    simp

theorem writePair_first (p : GoString × GoString) (ps : List (GoString × GoString)) :
    (p :: ps).foldl writePair [] = pairText p ++ ps.flatMap (fun p => 38 :: pairText p) := by
  have h1 : writePair [] p = pairText p := by simp [writePair, pairText]
  simp only [List.foldl_cons]
  rw [h1, writePair_nonempty _ (by simp [pairText])]

theorem splitOn_pairs (p : GoString × GoString) (ps : List (GoString × GoString)) :
    splitOn 38 (pairText p ++ ps.flatMap (fun p => 38 :: pairText p)) = (p :: ps).map pairText := by
  induction ps generalizing p with
  | nil => simp [splitOn_plain _ _ (pairText_amp p)]
  | cons q ps ih =>
    simp only [List.flatMap_cons, List.cons_append, List.map_cons]
    rw [splitOn_append _ _ _ (pairText_amp p), ih q]
    rfl

theorem splitOn_eq_cut (sep : Byte) (q : GoString) :
    splitOn sep q = (cut sep q).1 :: (if sep ∈ q then splitOn sep (cut sep q).2 else []) := by
  induction q with
  | nil => simp [splitOn, cut]
  | cons c cs ih =>
    by_cases h : c = sep
    · simp [splitOn, cut, h]
    · have hm : (sep ∈ c :: cs) ↔ sep ∈ cs := by
        simp [List.mem_cons, Ne.symm h]
      simp only [splitOn, cut, if_neg h, hm]
      rw [ih]

theorem cut_length (sep : Byte) (q : GoString) : (cut sep q).2.length ≤ q.length - 1 := by
  induction q with
  | nil => simp [cut]
  | cons c cs ih =>
    by_cases h : c = sep
    · simp [cut, h]
    · simp only [cut, if_neg h, List.length_cons, Nat.add_sub_cancel]
      omega

theorem cut_not_mem (sep : Byte) (q : GoString) (h : sep ∉ q) : (cut sep q).2 = [] := by
  induction q with
  | nil => rfl
  | cons c cs ih =>
    have hc : c ≠ sep := fun e => h (by simp [e])
    have hcs : sep ∉ cs := fun e => h (List.mem_cons_of_mem _ e)
    simp [cut, hc, ih hcs]

theorem parseQueryStep_nil (m : StrMap) : parseQueryStep m [] = m := by
  simp [parseQueryStep]

/-- The loop of `url.parseQuery` handles the pieces between the ampersands one
after the other. -/
theorem parseQueryLoop_eq_foldl :
    ∀ (fuel : Nat) (m : StrMap) (q : GoString), q.length ≤ fuel →
      parseQueryLoop fuel m q = (splitOn 38 q).foldl parseQueryStep m := by
  intro fuel
  induction fuel with
  | zero =>
    intro m q hq
    have : q = [] := List.length_eq_zero.1 (Nat.le_zero.1 hq)
    subst this
    simp [parseQueryLoop, splitOn, parseQueryStep_nil]
  | succ n ih =>
    intro m q hq
    by_cases hq0 : q = []
    · subst hq0
      simp [parseQueryLoop, splitOn, parseQueryStep_nil]
    · rw [parseQueryLoop, if_neg hq0, splitOn_eq_cut]
      have hlen : (cut 38 q).2.length ≤ n := by
        have := cut_length 38 q
        omega
      rw [ih _ _ hlen]
      by_cases hmem : (38 : Byte) ∈ q
      · simp [hmem]
      · simp [hmem, cut_not_mem 38 q hmem, splitOn, parseQueryStep_nil]

theorem queryPairs_eq_foldl (q : GoString) :
    queryPairs q = (splitOn 38 q).foldl parseQueryStep ∅ :=
  parseQueryLoop_eq_foldl q.length ∅ q (Nat.le_refl _)

/-- Within the limit `url.ParseQuery` reads the pairs the query holds. -/
theorem parseQuery_within (q : GoString) (h : queryPieces q ≤ defaultMaxParams) :
    ParseQuery q = queryPairs q := by
  simp [ParseQuery, urlParamsWithinMax, h]

/-- Above the limit `url.ParseQuery` reads nothing. -/
theorem parseQuery_over (q : GoString) (h : defaultMaxParams < queryPieces q) :
    ParseQuery q = ∅ := by
  simp [ParseQuery, urlParamsWithinMax, Nat.not_le.2 h]

theorem parseQueryStep_pairText (m : StrMap) (p : GoString × GoString) :
    parseQueryStep m (pairText p) = Values.Add m p.1 p.2 := by
  have h59 : (59 : Byte) ∉ pairText p := by
    intro h
    simp only [pairText, List.mem_append, List.mem_singleton] at h
    rcases h with (h | h) | h
    · exact (queryEscape_plain _ _ h).2.2 rfl
    · exact absurd h (by decide)
    · exact (queryEscape_plain _ _ h).2.2 rfl
  have hne : pairText p ≠ [] := by simp [pairText]
  have h61 : (61 : Byte) ∉ QueryEscape p.1 := fun h => (queryEscape_plain _ _ h).2.1 rfl
  have hcut : cut 61 (pairText p) = (QueryEscape p.1, QueryEscape p.2) := by
    have := cut_append 61 (QueryEscape p.1) (QueryEscape p.2) h61
    simpa [pairText] using this
  rw [parseQueryStep, if_neg h59, if_neg hne, hcut]
  simp only [queryUnescape_queryEscape]
  rfl

theorem parse_pairs (m : StrMap) (ps : List (GoString × GoString)) :
    (ps.map pairText).foldl parseQueryStep m = ps.foldl (fun m p => Values.Add m p.1 p.2) m := by
  induction ps generalizing m with
  | nil => rfl
  | cons p ps ih => simp only [List.map_cons, List.foldl_cons, parseQueryStep_pairText, ih]

theorem queryPairs_encode (v : StrMap) :
    queryPairs (Values.Encode v) =
      (pairsOf v (v.keys.insertionSort (fun a b => strLe a b = true))).foldl
        (fun m p => Values.Add m p.1 p.2) ∅ := by
  rw [queryPairs_eq_foldl]
  unfold Values.Encode
  rw [encode_foldl]
  cases hps : pairsOf v (v.keys.insertionSort (fun a b => strLe a b = true)) with
  | nil => simp [splitOn, parseQueryStep]
  | cons p ps => rw [writePair_first, splitOn_pairs, parse_pairs]

theorem mapIndex_values_add (m : StrMap) (k v k1 : GoString) :
    mapIndex (Values.Add m k v) k1 = if k = k1 then mapIndex m k1 ++ [v] else mapIndex m k1 := by
  unfold Values.Add
  split
  · rename_i h; subst h; exact mapIndex_mapAssign_self _ _ _
  · rename_i h; exact mapIndex_mapAssign_ne _ _ _ _ (Ne.symm h)

theorem mapIndex_add_pairs (ps : List (GoString × GoString)) (m : StrMap) (k : GoString) :
    mapIndex (ps.foldl (fun m p => Values.Add m p.1 p.2) m) k =
      mapIndex m k ++ (ps.filter (fun p => decide (p.1 = k))).map (fun p => p.2) := by
  induction ps generalizing m with
  | nil => simp
  | cons p ps ih =>
    simp only [List.foldl_cons]
    rw [ih, mapIndex_values_add]
    by_cases h : p.1 = k
    · simp [h, List.filter_cons]
    · simp [h, List.filter_cons]

theorem pairsOf_filter_not_mem (v : StrMap) (keys : List GoString) (k : GoString)
    (h : k ∉ keys) : (pairsOf v keys).filter (fun p => decide (p.1 = k)) = [] := by
  rw [List.filter_eq_nil_iff]
  intro p hp
  simp only [pairsOf, List.mem_flatMap, List.mem_map] at hp
  obtain ⟨k1, hk1, x, _, hx⟩ := hp
  subst hx
  simp only [decide_eq_true_eq]
  intro e
  exact h (e ▸ hk1)

theorem pairsOf_filter (v : StrMap) (keys : List GoString) (k : GoString) (hn : keys.Nodup) :
    ((pairsOf v keys).filter (fun p => decide (p.1 = k))).map (fun p => p.2) =
      if k ∈ keys then mapIndex v k else [] := by
  induction keys with
  | nil => simp [pairsOf]
  | cons a keys ih =>
    obtain ⟨ha, hn1⟩ := List.nodup_cons.1 hn
    have hcons : pairsOf v (a :: keys) = (mapIndex v a).map (fun x => (a, x)) ++ pairsOf v keys := by
      simp [pairsOf]
    rw [hcons, List.filter_append, List.map_append, ih hn1]
    by_cases hka : a = k
    · subst hka
      have h1 : ((mapIndex v a).map (fun x => (a, x))).filter (fun p => decide (p.1 = a))
          = (mapIndex v a).map (fun x => (a, x)) := by
        rw [List.filter_eq_self]
        intro p hp
        simp only [List.mem_map] at hp
        obtain ⟨x, _, hx⟩ := hp
        subst hx
        simp
      rw [h1]
      simp [ha, Function.comp_def]
    · have h1 : ((mapIndex v a).map (fun x => (a, x))).filter (fun p => decide (p.1 = k)) = [] := by
        rw [List.filter_eq_nil_iff]
        intro p hp
        simp only [List.mem_map] at hp
        obtain ⟨x, _, hx⟩ := hp
        subst hx
        simpa using hka
      rw [h1]
      have : (k ∈ a :: keys) ↔ k ∈ keys := by
        simp [List.mem_cons, Ne.symm hka]
      simp [this]

theorem mapIndex_of_not_mem (v : StrMap) (k : GoString) (h : k ∉ v.keys) : mapIndex v k = [] := by
  have : v.lookup k = none := AList.lookup_eq_none.2 h
  simp [mapIndex, this]

/-- Reading back what `Values.Encode` wrote gives, key for key, the values
that were encoded. -/
theorem query_roundtrip (v : StrMap) (k : GoString) :
    mapIndex (queryPairs (Values.Encode v)) k = mapIndex v k := by
  rw [queryPairs_encode, mapIndex_add_pairs]
  have hperm : (v.keys.insertionSort (fun a b => strLe a b = true)).Perm v.keys :=
    List.perm_insertionSort _ _
  have hn : (v.keys.insertionSort (fun a b => strLe a b = true)).Nodup :=
    hperm.nodup_iff.2 v.keys_nodup
  rw [pairsOf_filter v _ k hn]
  have h0 : mapIndex (∅ : StrMap) k = [] := rfl
  rw [h0, List.nil_append]
  split
  · rfl
  · rename_i hk
    have : k ∉ v.keys := fun h => hk (hperm.mem_iff.2 h)
    exact (mapIndex_of_not_mem v k this).symm

theorem noEmpty_add (m : StrMap) (k v : GoString) (h : NoEmpty m) : NoEmpty (Values.Add m k v) := by
  intro k1 hk1
  rw [mapIndex_values_add]
  split
  · simp
  · rename_i hne
    have hmem : k1 ∈ (mapAssign m k (mapIndex m k ++ [v])) := hk1
    rw [mapAssign, AList.mem_insert] at hmem
    rcases hmem with h1 | h1
    · exact absurd h1.symm hne
    · exact h k1 h1

theorem noEmpty_step (m : StrMap) (key : GoString) (h : NoEmpty m) :
    NoEmpty (parseQueryStep m key) := by
  unfold parseQueryStep
  split
  · exact h
  · split
    · exact h
    · split
      · exact h
      · split
        · exact h
        · exact noEmpty_add _ _ _ h

theorem noEmpty_queryPairs (q : GoString) : NoEmpty (queryPairs q) := by
  rw [queryPairs_eq_foldl]
  have : ∀ (segs : List GoString) (m : StrMap), NoEmpty m →
      NoEmpty (segs.foldl parseQueryStep m) := by
    intro segs
    induction segs with
    | nil => intro m h; exact h
    | cons a segs ih => intro m h; exact ih _ (noEmpty_step m a h)
  exact this _ _ (fun k hk => absurd hk (by simp))

/-! ## Merging in `Get` -/

theorem mapIndex_add_values (vs : List GoString) (q : StrMap) (k k1 : GoString) :
    mapIndex (vs.foldl (fun q s => Values.Add q k s) q) k1 =
      if k = k1 then mapIndex q k1 ++ vs else mapIndex q k1 := by
  induction vs generalizing q with
  | nil => simp
  | cons a vs ih =>
    simp only [List.foldl_cons]
    rw [ih, mapIndex_values_add]
    split <;> simp

theorem mapIndex_merge (es : List (Sigma fun _ : GoString => List GoString)) (hn : es.NodupKeys)
    (q : StrMap) (k : GoString) :
    mapIndex (es.foldl (fun q kv => kv.2.foldl (fun q s => Values.Add q kv.1 s) q) q) k =
      mapIndex q k ++ (es.dlookup k).getD [] := by
  induction es generalizing q with
  | nil => simp
  | cons e es ih =>
    obtain ⟨he, hn1⟩ := List.nodupKeys_cons.1 hn
    simp only [List.foldl_cons]
    rw [ih hn1, mapIndex_add_values]
    obtain ⟨a, vs⟩ := e
    by_cases h : a = k
    · subst h
      have : es.dlookup a = none := List.dlookup_eq_none.2 he
      simp [this]
    · have hd : List.dlookup k (⟨a, vs⟩ :: es) = List.dlookup k es :=
        List.dlookup_cons_ne es ⟨a, vs⟩ (fun e => h e.symm)
      simp [h, hd]

theorem mergeQuery_raw (req : Request) (Q : StrMap) (more : List StrMap) :
    (Client.mergeQuery req (Q :: more)).URL.RawQuery =
      Values.Encode (Q.entries.foldl
        (fun q kv => kv.2.foldl (fun q s => Values.Add q kv.1 s) q) (URL.Query req.URL)) := rfl

/-- What the merged query of `Client.Get` holds: per key, what `URL.Query`
read from the URL and then the call-time values. -/
theorem mergeQuery_pairs (req : Request) (Q : StrMap) (more : List StrMap) (k : GoString) :
    mapIndex (queryPairs (Client.mergeQuery req (Q :: more)).URL.RawQuery) k =
      mapIndex (URL.Query req.URL) k ++ mapIndex Q k := by
  rw [mergeQuery_raw, query_roundtrip, mapIndex_merge _ Q.nodupKeys]
  rfl

theorem mem_keys_of_mapIndex (m : StrMap) (k : GoString) (h : mapIndex m k ≠ []) : k ∈ m.keys := by
  by_contra hk
  exact h (mapIndex_of_not_mem m k hk)

/-! ## The limit on the pieces of a query -/

theorem count_pairText (p : GoString × GoString) : (pairText p).count 38 = 0 :=
  List.count_eq_zero.2 (pairText_amp p)

theorem count_pairs (ps : List (GoString × GoString)) :
    (ps.flatMap (fun p => 38 :: pairText p)).count 38 = ps.length := by
  induction ps with
  | nil => rfl
  | cons p ps ih =>
    simp only [List.flatMap_cons, List.cons_append, List.count_cons_self, List.count_append,
      count_pairText, ih, List.length_cons]
    omega

theorem pairsOf_length (v : StrMap) (keys : List GoString) :
    (pairsOf v keys).length = (keys.map (fun k => (mapIndex v k).length)).sum := by
  induction keys with
  | nil => rfl
  | cons a keys ih =>
    have hcons : pairsOf v (a :: keys) = (mapIndex v a).map (fun x => (a, x)) ++ pairsOf v keys := by
      simp [pairsOf]
    rw [hcons, List.length_append, List.length_map, ih, List.map_cons, List.sum_cons]

/-- The encoded query has one piece for each value, and one piece when there
is no value. -/
theorem queryPieces_encode (v : StrMap) :
    queryPieces (Values.Encode v) = max 1 (valueCount v) := by
  have hperm : (v.keys.insertionSort (fun a b => strLe a b = true)).Perm v.keys :=
    List.perm_insertionSort _ _
  have hcount : (pairsOf v (v.keys.insertionSort (fun a b => strLe a b = true))).length
      = valueCount v := by
    rw [pairsOf_length, valueCount]
    exact (hperm.map _).sum_eq
  unfold Values.Encode queryPieces
  rw [encode_foldl, ← hcount]
  cases hps : pairsOf v (v.keys.insertionSort (fun a b => strLe a b = true)) with
  | nil => rfl
  | cons p ps =>
    rw [writePair_first, List.count_append, count_pairText, count_pairs, List.length_cons]
    omega

theorem valueCount_eq_sum (a : StrMap) (u : Finset GoString) (hu : a.keys.toFinset ⊆ u) :
    valueCount a = ∑ k in u, (mapIndex a k).length := by
  rw [valueCount, ← List.sum_toFinset _ a.keys_nodup]
  apply Finset.sum_subset hu
  intro k _ hk
  have : k ∉ a.keys := fun h => hk (List.mem_toFinset.2 h)
  rw [mapIndex_of_not_mem a k this]
  rfl

/-- Maps with value lists of the same lengths have the same number of
values. -/
theorem valueCount_congr (a b : StrMap)
    (h : ∀ k, (mapIndex a k).length = (mapIndex b k).length) : valueCount a = valueCount b := by
  rw [valueCount_eq_sum a (a.keys.toFinset ∪ b.keys.toFinset) Finset.subset_union_left,
    valueCount_eq_sum b (a.keys.toFinset ∪ b.keys.toFinset) Finset.subset_union_right]
  exact Finset.sum_congr rfl (fun k _ => h k)

theorem splitOn_replicate (n : Nat) (q : GoString) :
    splitOn 38 (List.replicate n (38 : Byte) ++ q) = List.replicate n [] ++ splitOn 38 q := by
  induction n with
  | zero => rfl
  | succ n ih => simp [List.replicate_succ, splitOn, ih]

theorem foldl_empty_pieces (n : Nat) (m : StrMap) (segs : List GoString) :
    (List.replicate n [] ++ segs).foldl parseQueryStep m = segs.foldl parseQueryStep m := by
  induction n with
  | zero => rfl
  | succ n ih => simp [List.replicate_succ, parseQueryStep_nil, ih]

/-- Empty pieces in front of a query do not change the pairs it holds. -/
theorem queryPairs_longQuery (tail : GoString) : queryPairs (longQuery tail) = queryPairs tail := by
  rw [queryPairs_eq_foldl, queryPairs_eq_foldl, longQuery, splitOn_replicate, foldl_empty_pieces]

theorem queryPieces_longQuery (tail : GoString) :
    queryPieces (longQuery tail) = 10000 + queryPieces tail := by
  rw [queryPieces, queryPieces, longQuery, List.count_append, List.count_replicate_self]
  omega

/-- `URL.Query` reads nothing from a query of 10001 pieces or more. -/
theorem query_longRequest (tail : GoString) : URL.Query (longRequest tail).URL = ∅ := by
  apply parseQuery_over
  have := queryPieces_longQuery tail
  have h1 : 1 ≤ queryPieces tail := by simp [queryPieces]
  show defaultMaxParams < queryPieces (longQuery tail)
  rw [this, defaultMaxParams]
  omega

/-! ## Merging in `Get`, replacing in `SetQuery` -/

/-- C6, counterexample: the query of ten thousand ampersands and then `a=1`
holds the pair `a=1` and has 10001 pieces, more than `URL.Query` accepts, so
`Client.Get` with the call-time query `b: [4]` sends the query `b=4`: the
value of `a` is not kept. -/
theorem get_drops_long_base :
    queryPieces (longQuery (ascii "a=1")) = 10001 ∧
    mapIndex (queryPairs (longQuery (ascii "a=1"))) (ascii "a") = [ascii "1"] ∧
    (Client.mergeQuery (longRequest (ascii "a=1")) [smallQuery]).URL.RawQuery = ascii "b=4" ∧
    mapIndex (queryPairs (Client.mergeQuery (longRequest (ascii "a=1")) [smallQuery]).URL.RawQuery)
        (ascii "a") ≠
      mapIndex (queryPairs (longQuery (ascii "a=1"))) (ascii "a") ++
        mapIndex smallQuery (ascii "a") := by
  have h3 : (Client.mergeQuery (longRequest (ascii "a=1")) [smallQuery]).URL.RawQuery
      = ascii "b=4" := by
    rw [mergeQuery_raw, query_longRequest]
    decide
  refine ⟨?_, ?_, h3, ?_⟩
  · rw [queryPieces_longQuery]
    decide
  · rw [queryPairs_longQuery]
    decide
  · rw [h3, queryPairs_longQuery]
    decide

/-- C6, amended: when the query of the URL has at most 10000 pieces (what
`URL.Query` accepts), then after the query merging of `Client.Get` the values
of every key `k` the query of the request holds are the values of `k` the
query of the URL holds, in their order, followed by the values of `k` in the
call-time query, in their order, and a key of the result is a key of one of
the two; `URL.Query` reads the query of the URL as it is, and it reads the
merged query as it is when that has at most 10000 pieces too; `Client.Get`
sends the merged request; and for the query `a=1` of the URL and the
call-time query with `a: [2,3]` and `b: [4]` the encoded query is
`a=1&a=2&a=3&b=4`, in whichever order the map is visited. -/
theorem get_merges_query (req : Request) (Q : StrMap) (more : List StrMap) (k : GoString)
    (hbase : queryPieces req.URL.RawQuery ≤ defaultMaxParams) :
    mapIndex (queryPairs (Client.mergeQuery req (Q :: more)).URL.RawQuery) k =
      mapIndex (queryPairs req.URL.RawQuery) k ++ mapIndex Q k ∧
    (k ∈ (queryPairs (Client.mergeQuery req (Q :: more)).URL.RawQuery).keys →
      k ∈ (queryPairs req.URL.RawQuery).keys ∨ k ∈ Q.keys) ∧
    URL.Query req.URL = queryPairs req.URL.RawQuery ∧
    (queryPieces (Client.mergeQuery req (Q :: more)).URL.RawQuery ≤ defaultMaxParams →
      mapIndex (URL.Query (Client.mergeQuery req (Q :: more)).URL) k =
        mapIndex (URL.Query req.URL) k ++ mapIndex Q k) ∧
    (∀ (env : Env) (c : Client) (url : GoString),
      env.NewRequest (ascii "GET") url = .ok req →
      Client.Get env c url (Q :: more) [] =
        .ok (Client.Do env c (Client.mergeQuery req (Q :: more)) [])) ∧
    (Client.mergeQuery sampleRequest [sampleQuery]).URL.RawQuery = ascii "a=1&a=2&a=3&b=4" ∧
    (Client.mergeQuery sampleRequest [sampleQuerySwapped]).URL.RawQuery
      = ascii "a=1&a=2&a=3&b=4" := by
  have hq : URL.Query req.URL = queryPairs req.URL.RawQuery := parseQuery_within _ hbase
  have h1 : mapIndex (queryPairs (Client.mergeQuery req (Q :: more)).URL.RawQuery) k =
      mapIndex (queryPairs req.URL.RawQuery) k ++ mapIndex Q k := by
    rw [mergeQuery_pairs, hq]
  refine ⟨h1, ?_, hq, ?_, ?_, by decide, by decide⟩
  · intro hk
    have h3 := noEmpty_queryPairs _ k hk
    rw [h1] at h3
    by_cases hb : mapIndex (queryPairs req.URL.RawQuery) k = []
    · right
      apply mem_keys_of_mapIndex
      intro hq
      exact h3 (by rw [hb, hq]; rfl)
    · left
      exact mem_keys_of_mapIndex _ _ hb
  · intro hres
    have : URL.Query (Client.mergeQuery req (Q :: more)).URL =
        queryPairs (Client.mergeQuery req (Q :: more)).URL.RawQuery := parseQuery_within _ hres
    rw [this, h1, hq]
  · intro env c url hreq
    simp [Client.Get, hreq]

theorem get_merges_query_witness :
    queryPieces sampleRequest.URL.RawQuery ≤ defaultMaxParams ∧
    (mapIndex (queryPairs (Client.mergeQuery sampleRequest (sampleQuery :: [])).URL.RawQuery)
        (ascii "a") =
      mapIndex (queryPairs sampleRequest.URL.RawQuery) (ascii "a") ++
        mapIndex sampleQuery (ascii "a") ∧
    (ascii "a" ∈ (queryPairs (Client.mergeQuery sampleRequest (sampleQuery :: [])).URL.RawQuery).keys →
      ascii "a" ∈ (queryPairs sampleRequest.URL.RawQuery).keys ∨ ascii "a" ∈ sampleQuery.keys) ∧
    URL.Query sampleRequest.URL = queryPairs sampleRequest.URL.RawQuery ∧
    (queryPieces (Client.mergeQuery sampleRequest (sampleQuery :: [])).URL.RawQuery
        ≤ defaultMaxParams →
      mapIndex (URL.Query (Client.mergeQuery sampleRequest (sampleQuery :: [])).URL) (ascii "a") =
        mapIndex (URL.Query sampleRequest.URL) (ascii "a") ++ mapIndex sampleQuery (ascii "a")) ∧
    (∀ (env : Env) (c : Client) (url : GoString),
      env.NewRequest (ascii "GET") url = .ok sampleRequest →
      Client.Get env c url (sampleQuery :: []) [] =
        .ok (Client.Do env c (Client.mergeQuery sampleRequest (sampleQuery :: [])) [])) ∧
    (Client.mergeQuery sampleRequest [sampleQuery]).URL.RawQuery = ascii "a=1&a=2&a=3&b=4" ∧
    (Client.mergeQuery sampleRequest [sampleQuerySwapped]).URL.RawQuery
      = ascii "a=1&a=2&a=3&b=4") :=
  ⟨by decide, get_merges_query sampleRequest sampleQuery [] (ascii "a") (by decide)⟩

theorem setQuery_raw (req : Request) (k v : GoString) :
    (SimpleDelayRequest.SetQuery req k v).URL.RawQuery =
      Values.Encode (Values.Set (URL.Query req.URL) k v) := rfl

theorem mapIndex_values_set (m : StrMap) (k v k1 : GoString) :
    mapIndex (Values.Set m k v) k1 = if k1 = k then [v] else mapIndex m k1 := by
  rw [Values.Set]
  split
  · rename_i h; subst h; exact mapIndex_mapAssign_self _ _ _
  · rename_i h; exact mapIndex_mapAssign_ne _ _ _ _ h

/-- What the query holds after `SetQuery`: the one value for the key, and for
the other keys what `URL.Query` read before. -/
theorem setQuery_pairs (req : Request) (k v k1 : GoString) :
    mapIndex (queryPairs (SimpleDelayRequest.SetQuery req k v).URL.RawQuery) k1 =
      if k1 = k then [v] else mapIndex (URL.Query req.URL) k1 := by
  rw [setQuery_raw, query_roundtrip, mapIndex_values_set]

/-- C7, counterexample: the query of ten thousand ampersands and then `z=1`
holds the pair `z=1`; after `SetQuery("k", "v")` and `SetQuery("k", "w")` the
query is `k=w` and the value of `z` is gone. -/
theorem setQuery_drops_long_query :
    ascii "z" ≠ ascii "k" ∧
    mapIndex (queryPairs (longRequest (ascii "z=1")).URL.RawQuery) (ascii "z") = [ascii "1"] ∧
    (SimpleDelayRequest.SetQuery
      (SimpleDelayRequest.SetQuery (longRequest (ascii "z=1")) (ascii "k") (ascii "v"))
      (ascii "k") (ascii "w")).URL.RawQuery = ascii "k=w" ∧
    mapIndex (queryPairs (SimpleDelayRequest.SetQuery
      (SimpleDelayRequest.SetQuery (longRequest (ascii "z=1")) (ascii "k") (ascii "v"))
      (ascii "k") (ascii "w")).URL.RawQuery) (ascii "z") = [] := by
  have e1 : (SimpleDelayRequest.SetQuery (longRequest (ascii "z=1")) (ascii "k")
      (ascii "v")).URL.RawQuery = ascii "k=v" := by
    rw [setQuery_raw, query_longRequest]
    decide
  have e2 : (SimpleDelayRequest.SetQuery
      (SimpleDelayRequest.SetQuery (longRequest (ascii "z=1")) (ascii "k") (ascii "v"))
      (ascii "k") (ascii "w")).URL.RawQuery = ascii "k=w" := by
    rw [setQuery_raw, URL.Query, e1]
    decide
  refine ⟨by decide, ?_, e2, ?_⟩
  · show mapIndex (queryPairs (longQuery (ascii "z=1"))) (ascii "z") = [ascii "1"]
    rw [queryPairs_longQuery]
    decide
  · rw [e2]
    decide

/-- C7, amended: when the query of the request has at most 10000 pieces (what
`URL.Query` accepts) and the query after `SetQuery(k, v)` has at most 10000
pieces too, then after `SetQuery(k, v)` and then `SetQuery(k, w)` the query of
the request, which `URL.Query` reads as it is, has the single value `w` for
`k`, and for every other key the values it had before. -/
theorem setQuery_last_write_wins (req : Request) (k v w k1 : GoString) (hne : k1 ≠ k)
    (h1 : queryPieces req.URL.RawQuery ≤ defaultMaxParams)
    (h2 : queryPieces (SimpleDelayRequest.SetQuery req k v).URL.RawQuery ≤ defaultMaxParams) :
    mapIndex (URL.Query
      (SimpleDelayRequest.SetQuery (SimpleDelayRequest.SetQuery req k v) k w).URL) k = [w] ∧
    mapIndex (URL.Query
      (SimpleDelayRequest.SetQuery (SimpleDelayRequest.SetQuery req k v) k w).URL) k1
      = mapIndex (URL.Query req.URL) k1 ∧
    URL.Query req.URL = queryPairs req.URL.RawQuery ∧
    URL.Query (SimpleDelayRequest.SetQuery (SimpleDelayRequest.SetQuery req k v) k w).URL =
      queryPairs
        (SimpleDelayRequest.SetQuery (SimpleDelayRequest.SetQuery req k v) k w).URL.RawQuery := by
  have hq1 : URL.Query (SimpleDelayRequest.SetQuery req k v).URL =
      queryPairs (SimpleDelayRequest.SetQuery req k v).URL.RawQuery := parseQuery_within _ h2
  have hlen : ∀ k2, (mapIndex (Values.Set (URL.Query (SimpleDelayRequest.SetQuery req k v).URL)
      k w) k2).length = (mapIndex (Values.Set (URL.Query req.URL) k v) k2).length := by
    intro k2
    rw [mapIndex_values_set, mapIndex_values_set]
    by_cases hk : k2 = k
    · simp [hk]
    · rw [if_neg hk, if_neg hk, hq1, setQuery_pairs, if_neg hk]
  have h3 : queryPieces (SimpleDelayRequest.SetQuery
      (SimpleDelayRequest.SetQuery req k v) k w).URL.RawQuery ≤ defaultMaxParams := by
    rw [setQuery_raw, queryPieces_encode, valueCount_congr _ _ hlen, ← queryPieces_encode,
      ← setQuery_raw]
    exact h2
  have hq2 : URL.Query
      (SimpleDelayRequest.SetQuery (SimpleDelayRequest.SetQuery req k v) k w).URL =
      queryPairs (SimpleDelayRequest.SetQuery
        (SimpleDelayRequest.SetQuery req k v) k w).URL.RawQuery := parseQuery_within _ h3
  refine ⟨?_, ?_, parseQuery_within _ h1, hq2⟩
  · rw [hq2, setQuery_pairs, if_pos rfl]
  · rw [hq2, setQuery_pairs, if_neg hne, hq1, setQuery_pairs, if_neg hne]

theorem setQuery_last_write_wins_witness :
    ascii "z" ≠ ascii "k" ∧
    queryPieces twoValuedRequest.URL.RawQuery ≤ defaultMaxParams ∧
    queryPieces (SimpleDelayRequest.SetQuery twoValuedRequest (ascii "k")
      (ascii "v")).URL.RawQuery ≤ defaultMaxParams ∧
    mapIndex (URL.Query twoValuedRequest.URL) (ascii "k") = [ascii "a", ascii "b"] ∧
    (SimpleDelayRequest.SetQuery (SimpleDelayRequest.SetQuery twoValuedRequest (ascii "k") (ascii "v"))
      (ascii "k") (ascii "w")).URL.RawQuery = ascii "k=w&z=1" ∧
    (mapIndex (URL.Query
      (SimpleDelayRequest.SetQuery (SimpleDelayRequest.SetQuery twoValuedRequest (ascii "k") (ascii "v"))
        (ascii "k") (ascii "w")).URL) (ascii "k") = [ascii "w"] ∧
    mapIndex (URL.Query
      (SimpleDelayRequest.SetQuery (SimpleDelayRequest.SetQuery twoValuedRequest (ascii "k") (ascii "v"))
        (ascii "k") (ascii "w")).URL) (ascii "z")
      = mapIndex (URL.Query twoValuedRequest.URL) (ascii "z") ∧
    URL.Query twoValuedRequest.URL = queryPairs twoValuedRequest.URL.RawQuery ∧
    URL.Query (SimpleDelayRequest.SetQuery
        (SimpleDelayRequest.SetQuery twoValuedRequest (ascii "k") (ascii "v"))
        (ascii "k") (ascii "w")).URL =
      queryPairs (SimpleDelayRequest.SetQuery
        (SimpleDelayRequest.SetQuery twoValuedRequest (ascii "k") (ascii "v"))
        (ascii "k") (ascii "w")).URL.RawQuery) :=
  ⟨by decide, by decide, by decide, by decide, by decide,
    setQuery_last_write_wins twoValuedRequest (ascii "k") (ascii "v") (ascii "w") (ascii "z")
      (by decide) (by decide) (by decide)⟩

/-- The steps of `sampleSteps` leave the header `User-Agent` alone. -/
theorem sampleSteps_keep : allCalls KeepsUserAgent sampleSteps := by
  simp only [sampleSteps, allCalls, Call.All, and_true]
  exact ⟨keeps_setHeader _ _ (by decide), keeps_addHeader _ _ (by decide), trivial,
    keeps_setQuery _ _, trivial, keeps_setHeader _ _ (by decide)⟩

theorem userAgent_stamped_at_creation_witness :
    allCalls KeepsUserAgent sampleSteps ∧
    ((sentRequests (runCalls sampleSteps
        (Client.AsyncDo sampleEnv NewClient sampleRequest [] [])).sys.trace).length = 1 ∧
      (runCalls sampleSteps
        (Client.AsyncDo sampleEnv NewClient sampleRequest [] [])).sys.holder.requested = true ∧
      (runCalls sampleSteps
        (Client.AsyncDo sampleEnv NewClient sampleRequest [] [])).sys.goroutine = false ∧
      (runCalls sampleSteps
        (Client.AsyncDo sampleEnv NewClient sampleRequest [] [])).isReturned = true) ∧
    ((∀ r ∈ sentRequests (runCalls sampleSteps
        (Client.AsyncDo sampleEnv NewClient sampleRequest [] [])).sys.trace,
      mapIndex r.Header (ascii "User-Agent") = [UserAgent sampleEnv]) ∧
    (sentRequests (runCalls sampleSteps
      (Client.AsyncDo sampleEnv NewClient sampleRequest [] [])).sys.trace).length ≤ 1 ∧
    ((runCalls sampleSteps (Client.AsyncDo sampleEnv NewClient sampleRequest [] [])).isReturned
        = true →
      ∃ r, sentRequests
          (runCalls (sampleSteps ++ [Call.GetResponse])
            (Client.AsyncDo sampleEnv NewClient sampleRequest [] [])).sys.trace
          = [r] ∧
        mapIndex r.Header (ascii "User-Agent") = [UserAgent sampleEnv]) ∧
    (∃ r, sentRequests (Client.Do sampleEnv NewClient sampleRequest []).sys.trace = [r] ∧
      mapIndex r.Header (ascii "User-Agent") = [UserAgent sampleEnv]) ∧
    (∀ url query o, Client.Get sampleEnv NewClient url query [] = .ok o →
      ∃ r, sentRequests o.sys.trace = [r] ∧
        mapIndex r.Header (ascii "User-Agent") = [UserAgent sampleEnv]) ∧
    (∀ post : List Call,
      (runCalls sampleSteps
        (Client.AsyncDo sampleEnv NewClient sampleRequest [] [])).sys.holder.requested = true →
      (runCalls sampleSteps
        (Client.AsyncDo sampleEnv NewClient sampleRequest [] [])).sys.goroutine = false →
      ∀ r ∈ sentRequests
          (runCalls (sampleSteps ++ post)
            (Client.AsyncDo sampleEnv NewClient sampleRequest [] [])).sys.trace,
        mapIndex r.Header (ascii "User-Agent") = [UserAgent sampleEnv])) :=
  ⟨sampleSteps_keep, by decide,
    userAgent_stamped_at_creation sampleEnv NewClient sampleRequest [] sampleSteps
      sampleSteps_keep⟩

/-- C10, counterexample: a `Before` resolver that sets `User-Agent` to `x` on
a Holder not yet dispatched, and the same `SetHeader` through `Chain` on a
Holder made with `now = true` whose goroutine has not yet read the request:
in both the transport is handed exactly one request, and its only
`User-Agent` value is `x`, not `UserAgent()`. -/
theorem userAgent_overridden_by_before :
    (sentRequests (runCalls
        [Call.Before [Call.SetHeader (ascii "User-Agent") (ascii "x")], Call.GetResponse]
        (Client.AsyncDo sampleEnv NewClient sampleRequest [] [])).sys.trace).map
      (fun r => mapIndex r.Header (ascii "User-Agent")) = [[ascii "x"]] ∧
    (sentRequests (runCalls
        [Call.SetHeader (ascii "User-Agent") (ascii "x"), Call.GetResponse]
        (Client.AsyncDo sampleEnv NewClient sampleRequest [true] [])).sys.trace).map
      (fun r => mapIndex r.Header (ascii "User-Agent")) = [[ascii "x"]] ∧
    [ascii "x"] ≠ [UserAgent sampleEnv] := by
  decide

end Httpclient
